import Mathlib

/-!
Verification development for the gapless live-audio playback engine
(class GeminiLiveAudioService, file src/services/geminiService.ts).

Modelling conventions:
* JavaScript strings are modelled by Lean String values, but all string
  processing is carried out on the underlying character lists so that every
  definition evaluates by kernel reduction.
* The AudioContext clock (seconds, a JS double) is modelled by exact
  rationals.  Rational arithmetic is expressed through mkRat and Rat.divInt
  (which reduce), with bridge lemmas to the ordinary field operations.
* Wall-clock time (Date.now(), setTimeout) is modelled in integer
  milliseconds.
* The engine is assumed to run in a browser: window is defined, so connect()
  always allocates an AudioContext, and ctx.createBuffer is modelled as a
  total operation whose buffer has duration length / sampleRate.
* JS parseInt(x, 10) is modelled as an optional integer, none standing for
  NaN; a missing attribute is modelled by Option.
-/

namespace LiveAudio

/-! ## Exact rational helpers (kernel-reducible forms of +, max, division) -/

/-- Addition on rationals, phrased through mkRat so that it evaluates
under kernel reduction (the Batteries Rat.add is irreducible). -/
def qadd (a b : ℚ) : ℚ := mkRat (a.num * b.den + b.num * a.den) (a.den * b.den)

/-- Maximum of two rationals, phrased as a conditional so it evaluates. -/
def qmax (a b : ℚ) : ℚ := if a ≤ b then b else a

theorem qadd_eq (a b : ℚ) : qadd a b = a + b := by
  unfold qadd
  rw [Rat.mkRat_eq_div]
  push_cast
  have ha : (a.den : ℚ) ≠ 0 := by exact_mod_cast a.den_nz
  have hb : (b.den : ℚ) ≠ 0 := by exact_mod_cast b.den_nz
  conv_rhs => rw [← Rat.num_div_den a, ← Rat.num_div_den b, div_add_div _ _ ha hb]
  ring_nf

theorem qmax_eq (a b : ℚ) : qmax a b = max a b := (max_def a b).symm

/-! ## JS string primitives over character lists -/

/-- Characters treated as whitespace by String.prototype.trim (the inputs we
care about only ever use plain spaces). -/
def isJsSpace (c : Char) : Bool := c = ' ' ∨ c = '\t' ∨ c = '\n' ∨ c = '\r'

/-- JS String.prototype.trim on a character list. -/
def trimChars (cs : List Char) : List Char :=
  ((cs.dropWhile isJsSpace).reverse.dropWhile isJsSpace).reverse

/-- JS String.prototype.split(sep) for a single-character separator. -/
def splitOnChar (sep : Char) (cs : List Char) : List (List Char) :=
  cs.foldr
    (fun c acc =>
      if c = sep then [] :: acc
      else
        match acc with
        | h :: t => (c :: h) :: t
        | [] => [[c]])
    [[]]

/-- Longest digit run at the head of a character list, as a number. -/
def leadingDigits (cs : List Char) : Option Nat :=
  let ds := cs.takeWhile Char.isDigit
  if ds.isEmpty then none
  else some (ds.foldl (fun acc c => acc * 10 + (c.toNat - '0'.toNat)) 0)

/-- JS parseInt(s, 10): skip leading whitespace, optional sign, then the
longest digit run; none models NaN. -/
def parseIntJS (cs : List Char) : Option Int :=
  match cs.dropWhile isJsSpace with
  | '-' :: rest => (leadingDigits rest).map (fun n => -(n : Int))
  | '+' :: rest => (leadingDigits rest).map (fun n => (n : Int))
  | rest => (leadingDigits rest).map (fun n => (n : Int))

/-! ## parseMimeType (src/services/geminiService.ts lines 130-154) -/

/-- Result record of parseMimeType.  sampleRate is optional (absent, or the
rate attribute failed to parse, i.e. NaN); numChannels and bitsPerSample are
initialised to the defaults 1 and 16. -/
structure MimeOptions where
  sampleRate : Option Int := none
  numChannels : Int := 1
  bitsPerSample : Int := 16
deriving Repr, DecidableEq

/-- The mime subtype: the piece after the slash of the first
semicolon-separated component (undefined in JS when there is no slash). -/
def mimeFormat (mimeType : String) : Option (List Char) :=
  let parts := (splitOnChar ';' mimeType.data).map trimChars
  (splitOnChar '/' (parts.headD [])).get? 1

/-- One step of the parameter loop of parseMimeType: a component of the form
key=value sets sampleRate when the trimmed key is rate. -/
def applyMimeParam (o : MimeOptions) (param : List Char) : MimeOptions :=
  let kv := (splitOnChar '=' param).map trimChars
  match kv with
  | key :: rest =>
      if key = "rate".data then { o with sampleRate := parseIntJS (rest.headD []) }
      else o
  | [] => o

/-- Model of parseMimeType: split on semicolons, read an optional bit depth
from a subtype of the shape L<bits>, then scan key=value parameters for
rate.  Channel count is never parsed and stays 1. -/
def parseMimeType (mimeType : String) : MimeOptions :=
  let parts := (splitOnChar ';' mimeType.data).map trimChars
  let params := parts.tail
  let base : MimeOptions := {}
  let withBits :=
    match mimeFormat mimeType with
    | some format =>
        if format.headD ' ' = 'L' then
          match parseIntJS (format.drop 1) with
          | some bits => { base with bitsPerSample := bits }
          | none => base
        else base
    | none => base
  params.foldl applyMimeParam withBits

/-- Sample rate actually used by scheduleNewChunks (lines 425-429):
parsed.sampleRate falls back to 24000 when absent, NaN or 0 (JS falsiness of
the or-operator). -/
def effectiveSampleRate (mimeType : String) : Int :=
  match (parseMimeType mimeType).sampleRate with
  | some r => if r = 0 then 24000 else r
  | none => 24000

/-! ## Base64 decoding and pcm16bitToFloat32 (lines 102-128) -/

/-- Value of one base64 alphabet character. -/
def base64CharVal (c : Char) : Option Nat :=
  if 'A' ≤ c ∧ c ≤ 'Z' then some (c.toNat - 'A'.toNat)
  else if 'a' ≤ c ∧ c ≤ 'z' then some (c.toNat - 'a'.toNat + 26)
  else if '0' ≤ c ∧ c ≤ '9' then some (c.toNat - '0'.toNat + 52)
  else if c = '+' then some 62
  else if c = '/' then some 63
  else none

/-- Remove up to two trailing padding characters. -/
def dropTrailingPad (cs : List Char) : List Char :=
  match cs.reverse with
  | '=' :: '=' :: rest => rest.reverse
  | '=' :: rest => rest.reverse
  | _ => cs

/-- Turn a run of 2, 3 or 4 six-bit values into 1, 2 or 3 bytes. -/
def b64Group : List Nat → List Nat
  | [a, b, c, d] => [a * 4 + b / 16, b % 16 * 16 + c / 4, c % 4 * 64 + d]
  | [a, b, c] => [a * 4 + b / 16, b % 16 * 16 + c / 4]
  | [a, b] => [a * 4 + b / 16]
  | _ => []

/-- Decode a list of six-bit values, four at a time. -/
def b64Bytes : List Nat → List Nat
  | a :: b :: c :: d :: rest => b64Group [a, b, c, d] ++ b64Bytes rest
  | rest => b64Group rest

/-- Model of window.atob (forgiving base64, without whitespace stripping):
returns the byte list, or none when atob would throw, namely on characters
outside the alphabet, misplaced padding, or a unit of length 1 mod 4. -/
def atobJS (s : String) : Option (List Nat) :=
  let cs := s.data
  let body := if cs.length % 4 = 0 then dropTrailingPad cs else cs
  if body.length % 4 = 1 then none
  else (body.mapM base64CharVal).map b64Bytes

/-- Reinterpret a byte value pair as a little-endian signed 16-bit sample;
none models the RangeError thrown by the Int16Array constructor when the
buffer has an odd number of bytes. -/
def bytesToInt16 : List Nat → Option (List Int)
  | [] => some []
  | _ :: [] => none
  | lo :: hi :: rest =>
      (bytesToInt16 rest).map
        (fun t =>
          (let v := (lo + 256 * hi) % 65536
           if v < 32768 then (v : Int) else (v : Int) - 65536) :: t)

/-- Model of pcm16bitToFloat32: base64-decode, reinterpret as 16-bit PCM,
scale into [-1, 1).  Any exception (bad base64, odd byte count) is caught by
the source and yields an empty sample array. -/
def pcm16bitToFloat32 (base64String : String) : List ℚ :=
  match atobJS base64String with
  | none => []
  | some bytes =>
      match bytesToInt16 bytes with
      | none => []
      | some ints => ints.map (fun i => Rat.divInt i 32768)

/-! ## Audio chunks and speech requests (lines 156-176) -/

/-- Default mime type used when a fragment arrives without one
(audio/pcm;rate=24000). -/
def defaultMime : String := "audio/pcm;rate=24000"

/-- One inbound audio fragment. -/
structure AudioChunk where
  data : String
  mimeType : String
  chunkIndex : Nat
deriving Repr, DecidableEq

/-- One speak() request, mirroring interface QueuedSpeechRequest.  The
finishTimer field holds the wall-clock time (ms) at which the pending
idle-check timeout is due, none when no timeout is pending.  The optional
onStart callback is represented only through the hasStarted one-shot guard. -/
structure QueuedSpeechRequest where
  text : String
  audioChunks : List AudioChunk := []
  isPlaying : Bool := false
  scheduledChunkCount : Nat := 0
  endedChunkCount : Nat := 0
  isComplete : Bool := false
  nextStartAt : Option ℚ := none
  finishTimer : Option Int := none
  lastChunkTs : Option Int := none
  hasStarted : Bool := false
deriving Repr, DecidableEq

/-- Grace window of the idle-finish check, ms (field idleFinishMs). -/
def idleFinishMs : Int := 200

/-- Priming offset applied to the first fragment of an utterance: 0.08 s. -/
def primingOffset : ℚ := mkRat 2 25

/-- Cursor fallback used when nextStartAt is unset: now + 0.01 s. -/
def cursorFallback : ℚ := mkRat 1 100

/-- Safety margin: a fragment never starts earlier than now + 0.005 s. -/
def safetyMargin : ℚ := mkRat 1 200

/-! ## The chunk scheduler (lines 388-472) -/

/-- A scheduled playback buffer: which fragment, its absolute start time on
the audio clock, and its buffer duration (samples / sampleRate). -/
structure ScheduledChunk where
  chunkIndex : Nat
  startAt : ℚ
  duration : ℚ
deriving Repr, DecidableEq

/-- Sample rate used for a chunk when scheduling it (line 427):
chunk.mimeType, defaulted when falsy, fed to parseMimeType. -/
def scheduleRate (c : AudioChunk) : Int :=
  effectiveSampleRate (if c.mimeType = "" then defaultMime else c.mimeType)

/-- The while-loop of scheduleNewChunks over the not-yet-scheduled chunks.
Zero-sample fragments are skipped without touching the cursor; others start
at max(cursor, now + safety margin) and advance the cursor by their
duration.  Returns the final cursor and the scheduled buffers in order. -/
def schedulePass (now : ℚ) : List AudioChunk → Option ℚ → Option ℚ × List ScheduledChunk
  | [], next? => (next?, [])
  | c :: rest, next? =>
      let samples := pcm16bitToFloat32 c.data
      if samples.length = 0 then
        schedulePass now rest next?
      else
        let dur := Rat.divInt samples.length (scheduleRate c)
        let startAt := qmax (next?.getD (qadd now cursorFallback)) (qadd now safetyMargin)
        let out := schedulePass now rest (some (qadd startAt dur))
        (out.1, ⟨c.chunkIndex, startAt, dur⟩ :: out.2)

/-- Result of one scheduling pass over a request: the updated request, the
buffers scheduled by the pass, and whether the one-shot playback-started
callback fired during it. -/
structure SchedOut where
  req : QueuedSpeechRequest
  events : List ScheduledChunk
  started : Bool
deriving Repr, DecidableEq

/-- Model of scheduleNewChunks on a request when the audio context is
available: run the while-loop from scheduledChunkCount to the end of
audioChunks, record the new cursor, mark every received chunk scheduled, and
trip the one-shot hasStarted guard when a first buffer is scheduled. -/
def scheduleNewChunksReq (now : ℚ) (r : QueuedSpeechRequest) : SchedOut :=
  let pending := r.audioChunks.drop r.scheduledChunkCount
  let out := schedulePass now pending r.nextStartAt
  { req :=
      { r with
          scheduledChunkCount := max r.scheduledChunkCount r.audioChunks.length,
          nextStartAt := out.1,
          hasStarted := r.hasStarted || !out.2.isEmpty },
    events := out.2,
    started := !r.hasStarted && !out.2.isEmpty }

/-- Model of startPlayingChunks (lines 388-404) when the audio context is
available: reset the counters, prime the cursor at now + 0.08 s, then
schedule whatever has arrived. -/
def startPlayingChunks (now : ℚ) (r : QueuedSpeechRequest) : SchedOut :=
  scheduleNewChunksReq now
    { r with
        isPlaying := true,
        scheduledChunkCount := 0,
        endedChunkCount := 0,
        hasStarted := false,
        nextStartAt := some (qadd now primingOffset) }

/-! ## Scheduler lemmas -/

theorem schedulePass_head_start (now : ℚ) :
    ∀ (chunks : List AudioChunk) (next? : Option ℚ) (e : ScheduledChunk),
      ((schedulePass now chunks next?).2).head? = some e →
      e.startAt = max (next?.getD (now + cursorFallback)) (now + safetyMargin) := by
  intro chunks
  induction chunks with
  | nil => intro next? e h; simp [schedulePass] at h
  | cons c rest ih =>
      intro next? e h
      by_cases hz : (pcm16bitToFloat32 c.data).length = 0
      · rw [schedulePass, if_pos hz] at h
        exact ih next? e h
      · rw [schedulePass, if_neg hz] at h
        simp only [List.head?_cons, Option.some.injEq] at h
        subst h
        simp [qmax, qadd_eq, max_def]

theorem schedulePass_start_lb (now : ℚ) :
    ∀ (chunks : List AudioChunk) (next? : Option ℚ) (e : ScheduledChunk),
      e ∈ (schedulePass now chunks next?).2 →
      now + safetyMargin ≤ e.startAt := by
  intro chunks
  induction chunks with
  | nil => intro next? e h; simp [schedulePass] at h
  | cons c rest ih =>
      intro next? e h
      by_cases hz : (pcm16bitToFloat32 c.data).length = 0
      · rw [schedulePass, if_pos hz] at h
        exact ih next? e h
      · rw [schedulePass, if_neg hz] at h
        simp only [List.mem_cons] at h
        rcases h with h | h
        · subst h
          show now + safetyMargin ≤
            qmax (next?.getD (qadd now cursorFallback)) (qadd now safetyMargin)
          simp only [qmax_eq, qadd_eq]
          exact le_max_right _ _
        · exact ih _ e h

theorem schedulePass_duration_pos (now : ℚ) :
    ∀ (chunks : List AudioChunk) (next? : Option ℚ),
      (∀ c ∈ chunks, 0 < scheduleRate c) →
      ∀ e ∈ (schedulePass now chunks next?).2, 0 < e.duration := by
  intro chunks
  induction chunks with
  | nil => intro next? _ e h; simp [schedulePass] at h
  | cons c rest ih =>
      intro next? hrate e h
      by_cases hz : (pcm16bitToFloat32 c.data).length = 0
      · rw [schedulePass, if_pos hz] at h
        exact ih next? (fun d hd => hrate d (List.mem_cons_of_mem _ hd)) e h
      · rw [schedulePass, if_neg hz] at h
        simp only [List.mem_cons] at h
        rcases h with h | h
        · subst h
          show (0 : ℚ) < Rat.divInt _ _
          rw [Rat.divInt_eq_div]
          apply div_pos
          · exact_mod_cast Nat.pos_of_ne_zero hz
          · exact_mod_cast hrate c (List.mem_cons_self c rest)
        · exact ih _ (fun d hd => hrate d (List.mem_cons_of_mem _ hd)) e h

/-- Within one scheduling pass, consecutive scheduled fragments abut
exactly: each one starts where the previous one ends. -/
theorem schedulePass_chain (now : ℚ) :
    ∀ (chunks : List AudioChunk) (next? : Option ℚ),
      (∀ c ∈ chunks, 0 < scheduleRate c) →
      List.Chain' (fun a b => b.startAt = a.startAt + a.duration)
        (schedulePass now chunks next?).2 := by
  intro chunks
  induction chunks with
  | nil => intro next? _; simp [schedulePass]
  | cons c rest ih =>
      intro next? hrate
      by_cases hz : (pcm16bitToFloat32 c.data).length = 0
      · rw [schedulePass, if_pos hz]
        exact ih next? (fun d hd => hrate d (List.mem_cons_of_mem _ hd))
      · rw [schedulePass, if_neg hz]
        apply List.chain'_cons'.mpr
        constructor
        · intro e he
          have hstart := schedulePass_head_start now rest _ e (Option.mem_def.mp he)
          simp only [Option.getD_some, qadd_eq, qmax_eq] at hstart
          simp only [qadd_eq, qmax_eq]
          rw [hstart]
          have h2 : (0 : ℚ) < Rat.divInt (pcm16bitToFloat32 c.data).length (scheduleRate c) := by
            rw [Rat.divInt_eq_div]
            exact div_pos (by exact_mod_cast Nat.pos_of_ne_zero hz)
              (by exact_mod_cast hrate c (List.mem_cons_self c rest))
          apply max_eq_left
          calc now + safetyMargin
              ≤ max (next?.getD (now + cursorFallback)) (now + safetyMargin) := le_max_right _ _
            _ ≤ max (next?.getD (now + cursorFallback)) (now + safetyMargin) +
                Rat.divInt (pcm16bitToFloat32 c.data).length (scheduleRate c) :=
                le_add_of_nonneg_right h2.le
        · exact ih _ (fun d hd => hrate d (List.mem_cons_of_mem _ hd))

/-! ## Inbound messages, engine state and observable actions -/

/-- The inlineData of a message part: base64 payload and optional mime type. -/
structure InlineData where
  data : String
  mimeType : Option String
deriving Repr, DecidableEq

/-- One part of a model turn. -/
structure MessagePart where
  inlineData : Option InlineData
deriving Repr, DecidableEq

/-- One inbound LiveServerMessage, reduced to the fields the engine reads:
serverContent.modelTurn.parts (only the first part is inspected) and
serverContent.turnComplete. -/
structure ServerMessage where
  parts : List MessagePart := []
  turnComplete : Bool := false
deriving Repr, DecidableEq

/-- Whether processMessage would extract an audio fragment from the message:
the first part has inlineData with a truthy (non-empty) data field. -/
def carriesChunk (msg : ServerMessage) : Bool :=
  match msg.parts.head? with
  | some p =>
      match p.inlineData with
      | some d => !d.data.data.isEmpty
      | none => false
  | none => false

/-- Observable effects of an engine step: texts handed to the transport,
promise settlements, console warnings, closed resources, and the scheduled
audio buffers. -/
inductive EngineAction where
  | sent (text : String)
  | resolved (text : String)
  | resolvedImmediately (text : String)
  | rejected (text reason : String)
  | warned (msg : String)
  | connectError
  | closedSession
  | closedContext
  | startedPlayback (text : String)
  | scheduled (c : ScheduledChunk)
deriving Repr, DecidableEq

/-- Mutable state of a GeminiLiveAudioService instance.  The session, audio
context and output chain are modelled by liveness flags; playbackCursor is
declared (and reset by disconnect) but never otherwise used, exactly as in
the source. -/
structure EngineState where
  session : Bool := false
  audioContextAlive : Bool := false
  outputNode : Bool := false
  isSessionWarmedUp : Bool := false
  speechQueue : List QueuedSpeechRequest := []
  isProcessingQueue : Bool := false
  chunkCounter : Nat := 0
  playbackCursor : ℚ := 0
deriving Repr, DecidableEq

/-- Environment outcomes: whether ai.live.connect succeeds and whether
session.sendClientContent succeeds. -/
structure Env where
  connectOk : Bool
  sendOk : Bool
deriving Repr, DecidableEq

def warnAlreadyConnected : String := "Session already connected."

def warnNoContext : String := "Audio context not available"

def errDisconnected : String := "Audio service disconnected."

def errNotConnected : String := "Session not connected."

def errSend : String := "SendError"

/-! ## connect, disconnect (lines 243-323, 562-579) -/

/-- Model of connect(): a no-op warning when a session exists; otherwise the
audio context and output chain are created first, then the live connection
is attempted.  The third component is false when connect() throws (the
connection failure is rethrown after logging); note that the audio graph
stays allocated in that case. -/
def connectE (env : Env) (s : EngineState) : EngineState × List EngineAction × Bool :=
  if s.session then (s, [.warned warnAlreadyConnected], true)
  else
    let s1 := { s with audioContextAlive := true, outputNode := true }
    if env.connectOk then
      ({ s1 with session := true, isSessionWarmedUp := true }, [], true)
    else
      (s1, [], false)

/-- Model of disconnect(): close the session and the audio context if
present, reset every field, and reject every queued request. -/
def disconnectE (s : EngineState) : EngineState × List EngineAction :=
  (({ session := false, audioContextAlive := false, outputNode := false,
      isSessionWarmedUp := false, speechQueue := [], isProcessingQueue := false,
      chunkCounter := 0, playbackCursor := 0 } : EngineState),
    (if s.session then [.closedSession] else []) ++
      (if s.audioContextAlive then [.closedContext] else []) ++
      s.speechQueue.map (fun r => .rejected r.text errDisconnected))

/-! ## processQueue and finishCurrentSpeechRequest (lines 475-483, 520-560) -/

/-- The send/reject loop of processQueue: sending the head either succeeds
(the head stays queued, in flight) or throws, in which case the head is
rejected, the in-flight flag is dropped and processQueue is re-invoked,
which tries the next request.  Returns the remaining queue, the in-flight
flag and the emitted actions. -/
def sendLoop (env : Env) : List QueuedSpeechRequest →
    List QueuedSpeechRequest × Bool × List EngineAction
  | [] => ([], false, [])
  | r :: rest =>
      if env.sendOk then (r :: rest, true, [.sent r.text])
      else
        let out := sendLoop env rest
        (out.1, out.2.1, .rejected r.text errSend :: out.2.2)

/-- The tail of processQueue once a session is known to exist: mark the
queue in flight and run the send/reject loop on it. -/
def processQueueConnected (env : Env) (s : EngineState) : EngineState × List EngineAction :=
  let out := sendLoop env s.speechQueue
  ({ s with speechQueue := out.1, isProcessingQueue := out.2.1 }, out.2.2)

/-- Model of processQueue(): return if already in flight or the queue is
empty; with a session, send the head (rejecting-and-retrying on send
failures); with no session, lazily connect — a connect failure escapes as an
unhandled rejection (recorded as connectError) without touching the queue,
and the source's reject-head branch for a still-missing session after a
non-throwing connect is kept although such a connect always yields a
session. -/
def processQueueE (env : Env) (s : EngineState) : EngineState × List EngineAction :=
  if s.isProcessingQueue || s.speechQueue.isEmpty then (s, [])
  else if s.session then processQueueConnected env s
  else
    let c := connectE env s
    if !c.2.2 then (c.1, c.2.1 ++ [.connectError])
    else if !c.1.session then
      match c.1.speechQueue with
      | [] => (c.1, c.2.1)
      | r :: rest => ({ c.1 with speechQueue := rest }, c.2.1 ++ [.rejected r.text errNotConnected])
    else processQueueConnected env c.1

/-- Model of finishCurrentSpeechRequest(): shift the head off the queue and
resolve it, drop the in-flight flag, and process the next request. -/
def finishCurrentE (env : Env) (s : EngineState) : EngineState × List EngineAction :=
  match s.speechQueue with
  | [] => processQueueE env { s with isProcessingQueue := false }
  | r :: rest =>
      let out := processQueueE env { s with speechQueue := rest, isProcessingQueue := false }
      (out.1, .resolved r.text :: out.2)

/-! ## Engine-level scheduling (scheduleNewChunks, lines 407-472) -/

/-- Actions emitted by one scheduling pass on the head request. -/
def schedActions (text : String) (o : SchedOut) : List EngineAction :=
  (if o.started then [.startedPlayback text] else []) ++ o.events.map EngineAction.scheduled

/-- Model of scheduleNewChunks at engine level: without an audio context it
warns and finishes the current head (lines 408-412); otherwise it runs a
scheduling pass over the head request. -/
def scheduleNewChunksE (env : Env) (now : ℚ) (s : EngineState) :
    EngineState × List EngineAction :=
  if !s.audioContextAlive then
    let out := finishCurrentE env s
    (out.1, .warned warnNoContext :: out.2)
  else
    match s.speechQueue with
    | [] => (s, [])
    | r :: rest =>
        let o := scheduleNewChunksReq now r
        ({ s with speechQueue := o.req :: rest }, schedActions r.text o)

/-! ## processMessage and the idle-finish timer (lines 203-241, 325-386) -/

/-- The conjunction checked by the ensureFinishAfterIdle timeout callback
(lines 212-235): turn complete, the grace window elapsed since the last
fragment, every received fragment scheduled, every scheduled fragment ended
(and at least one scheduled), and at least one fragment received. -/
def finishReady (r : QueuedSpeechRequest) (t : Int) : Bool :=
  r.isComplete
    && decide (idleFinishMs ≤ t - r.lastChunkTs.getD 0)
    && decide (r.audioChunks.length ≤ r.scheduledChunkCount)
    && (decide (r.scheduledChunkCount ≤ r.endedChunkCount) && decide (0 < r.scheduledChunkCount))
    && decide (0 < r.audioChunks.length)

/-- The chunk payload carried by a message, with the mime type defaulted
when absent or empty (line 346). -/
def messageChunkData (msg : ServerMessage) : Option (String × String) :=
  match msg.parts.head? with
  | some p =>
      match p.inlineData with
      | some d =>
          if d.data.data.isEmpty then none
          else some (d.data,
            match d.mimeType with
            | some m => if m.data.isEmpty then defaultMime else m
            | none => defaultMime)
      | none => none
  | none => none

/-- Model of processMessage(): a no-op on an empty queue; otherwise append
any carried fragment to the head request, stamp its arrival time, start or
continue scheduling (two passes when playback starts, as in the source),
clear a pending idle timer, and on turnComplete mark the head complete and
arm the idle timer at t + idleFinishMs.  Without an audio context the
scheduling calls degenerate into finishing the then-current head, and the
later object mutations are engine-invisible. -/
def processMessageE (env : Env) (msg : ServerMessage) (t : Int) (now : ℚ)
    (s : EngineState) : EngineState × List EngineAction :=
  match s.speechQueue with
  | [] => (s, [])
  | cur :: rest =>
      let afterChunk : EngineState × List EngineAction × Bool :=
        match messageChunkData msg with
        | none => (s, [], true)
        | some dm =>
            let chunk : AudioChunk :=
              { data := dm.1, mimeType := dm.2, chunkIndex := s.chunkCounter }
            let cur1 :=
              { cur with
                  audioChunks := cur.audioChunks ++ [chunk],
                  lastChunkTs := some t }
            let s1 := { s with chunkCounter := s.chunkCounter + 1, speechQueue := cur1 :: rest }
            if s.audioContextAlive then
              let o1 :=
                if !cur1.isPlaying then startPlayingChunks now cur1
                else scheduleNewChunksReq now cur1
              let o2 := scheduleNewChunksReq now o1.req
              let cur3 := { o2.req with finishTimer := none }
              ({ s1 with speechQueue := cur3 :: rest },
                schedActions cur1.text o1 ++ schedActions cur1.text o2, true)
            else
              if !cur1.isPlaying then
                let s2 :=
                  { s1 with
                      speechQueue :=
                        { cur1 with
                            isPlaying := true, scheduledChunkCount := 0,
                            endedChunkCount := 0, hasStarted := false } :: rest }
                let f1 := scheduleNewChunksE env now s2
                let f2 := scheduleNewChunksE env now f1.1
                (f2.1, f1.2 ++ f2.2, false)
              else
                let f1 := scheduleNewChunksE env now s1
                (f1.1, f1.2, false)
      let s2 := afterChunk.1
      if msg.turnComplete && afterChunk.2.2 then
        match s2.speechQueue with
        | h :: hrest =>
            ({ s2 with
                speechQueue :=
                  { h with isComplete := true, finishTimer := some (t + idleFinishMs) } :: hrest },
              afterChunk.2.1)
        | [] => (s2, afterChunk.2.1)
      else (s2, afterChunk.2.1)

/-- Model of the ensureFinishAfterIdle timeout firing at wall time t (the
callback of lines 208-240): consume the pending timer, reschedule, then
either finish the utterance when every condition holds or re-arm the timer
for another grace window. -/
def timerFireE (env : Env) (t : Int) (now : ℚ) (s : EngineState) :
    EngineState × List EngineAction :=
  match s.speechQueue with
  | [] => (s, [])
  | cur :: rest =>
      match cur.finishTimer with
      | none => (s, [])
      | some _ =>
          let obj := { cur with finishTimer := none }
          if s.audioContextAlive then
            let o := scheduleNewChunksReq now obj
            let acts := schedActions obj.text o
            if finishReady o.req t then
              let f := finishCurrentE env { s with speechQueue := o.req :: rest }
              (f.1, acts ++ f.2)
            else
              ({ s with
                  speechQueue :=
                    { o.req with finishTimer := some (t + idleFinishMs) } :: rest }, acts)
          else
            let f1 := scheduleNewChunksE env now { s with speechQueue := obj :: rest }
            if finishReady obj t then
              let f2 := finishCurrentE env f1.1
              (f2.1, f1.2 ++ f2.2)
            else (f1.1, f1.2)

/-- Model of a source.onended callback for the head request (lines 454-459):
bump the ended count and, when the turn is already complete, re-arm the
idle-finish timer. -/
def chunkEndedE (t : Int) (s : EngineState) : EngineState × List EngineAction :=
  match s.speechQueue with
  | [] => (s, [])
  | cur :: rest =>
      let cur1 := { cur with endedChunkCount := cur.endedChunkCount + 1 }
      let cur2 :=
        if cur1.isComplete then { cur1 with finishTimer := some (t + idleFinishMs) } else cur1
      ({ s with speechQueue := cur2 :: rest }, [])

/-! ## speak (lines 491-518) and the event system -/

/-- Model of speak(): empty or whitespace-only text resolves immediately
without enqueueing; otherwise a fresh request is appended and the queue is
processed. -/
def speakE (env : Env) (text : String) (s : EngineState) : EngineState × List EngineAction :=
  if (trimChars text.data).isEmpty then (s, [.resolvedImmediately text])
  else processQueueE env { s with speechQueue := s.speechQueue ++ [{ text := text }] }

/-- External events driving the engine: the public API calls, inbound
transport messages (wall time t ms, audio clock now), idle-timer firings
and end-of-playback callbacks for the head request. -/
inductive EngineEvent where
  | speak (text : String)
  | connectCall
  | disconnectCall
  | message (msg : ServerMessage) (t : Int) (now : ℚ)
  | timerFire (t : Int) (now : ℚ)
  | chunkEnded (t : Int)
deriving Repr, DecidableEq

/-- One engine step.  A public connect() that throws surfaces as a
connectError action. -/
def engineStep (env : Env) (e : EngineEvent) (s : EngineState) :
    EngineState × List EngineAction :=
  match e with
  | .speak text => speakE env text s
  | .connectCall =>
      let o := connectE env s
      (o.1, if o.2.2 then o.2.1 else o.2.1 ++ [.connectError])
  | .disconnectCall => disconnectE s
  | .message msg t now => processMessageE env msg t now s
  | .timerFire t now => timerFireE env t now s
  | .chunkEnded t => chunkEndedE t s

/-- Run a list of events, accumulating the emitted actions. -/
def engineRun (env : Env) : List EngineEvent → EngineState → EngineState × List EngineAction
  | [], s => (s, [])
  | e :: rest, s =>
      let o := engineStep env e s
      let o2 := engineRun env rest o.1
      (o2.1, o.2 ++ o2.2)

/-- State of a freshly constructed engine after a successful connect(). -/
def connectedState : EngineState :=
  { session := true, audioContextAlive := true, outputNode := true, isSessionWarmedUp := true }

/-- Texts handed to the transport, in order. -/
def sentTexts (acts : List EngineAction) : List String :=
  acts.filterMap fun a => match a with | .sent t => some t | _ => none

/-- Texts of requests resolved through finishCurrentSpeechRequest, in order. -/
def resolvedTexts (acts : List EngineAction) : List String :=
  acts.filterMap fun a => match a with | .resolved t => some t | _ => none

/-- Rejected requests, as text-reason pairs, in order. -/
def rejectedList (acts : List EngineAction) : List (String × String) :=
  acts.filterMap fun a => match a with | .rejected t r => some (t, r) | _ => none

/-- Texts enqueued by the speak events of a trace (empty and whitespace-only
texts resolve immediately and are never enqueued). -/
def spokenTexts (evs : List EngineEvent) : List String :=
  evs.filterMap fun e =>
    match e with
    | .speak t => if (trimChars t.data).isEmpty then none else some t
    | _ => none

/-! ## Claim C6: format-descriptor parsing -/

def mimeL16 : String := "audio/L16;rate=16000"

def mimePcmBare : String := "audio/pcm"

/-- The bit depth explicitly encoded by a descriptor (a subtype of the form
L<bits> with a parseable number); none when the descriptor carries no bit
depth, so that parseMimeType falls back to the default 16. -/
def bitsExplicit (m : String) : Option Int :=
  match mimeFormat m with
  | some f => if f.headD ' ' = 'L' then parseIntJS (f.drop 1) else none
  | none => none

theorem applyMimeParam_numChannels (o : MimeOptions) (p : List Char) :
    (applyMimeParam o p).numChannels = o.numChannels := by
  unfold applyMimeParam
  rcases (splitOnChar '=' p).map trimChars with _ | ⟨k, rest⟩
  · rfl
  · by_cases h : k = "rate".data <;> simp [h]

theorem applyMimeParam_bits (o : MimeOptions) (p : List Char) :
    (applyMimeParam o p).bitsPerSample = o.bitsPerSample := by
  unfold applyMimeParam
  rcases (splitOnChar '=' p).map trimChars with _ | ⟨k, rest⟩
  · rfl
  · by_cases h : k = "rate".data <;> simp [h]

theorem foldParams_numChannels (ps : List (List Char)) :
    ∀ o : MimeOptions, (ps.foldl applyMimeParam o).numChannels = o.numChannels := by
  induction ps with
  | nil => intro o; rfl
  | cons p rest ih =>
      intro o
      rw [List.foldl_cons, ih, applyMimeParam_numChannels]

theorem foldParams_bits (ps : List (List Char)) :
    ∀ o : MimeOptions, (ps.foldl applyMimeParam o).bitsPerSample = o.bitsPerSample := by
  induction ps with
  | nil => intro o; rfl
  | cons p rest ih =>
      intro o
      rw [List.foldl_cons, ih, applyMimeParam_bits]

/-- Claim C6: "audio/L16;rate=16000" parses to 16 bits, 16000 Hz, 1 channel;
"audio/pcm;rate=24000" parses to the default 16 bits, 24000 Hz, 1 channel;
channel count is always 1 and bit depth defaults to 16 whenever the
descriptor encodes none; and the sample rate used for scheduling falls back
to 24000 when the rate attribute is missing or unparseable. -/
theorem parse_mime_descriptor_spec :
    parseMimeType mimeL16 =
        { sampleRate := some 16000, numChannels := 1, bitsPerSample := 16 } ∧
      parseMimeType defaultMime =
        { sampleRate := some 24000, numChannels := 1, bitsPerSample := 16 } ∧
      (∀ m : String, (parseMimeType m).numChannels = 1) ∧
      (∀ m : String, bitsExplicit m = none → (parseMimeType m).bitsPerSample = 16) ∧
      (∀ m : String, (parseMimeType m).sampleRate = none → effectiveSampleRate m = 24000) := by
  refine ⟨by decide, by decide, ?_, ?_, ?_⟩
  · intro m
    unfold parseMimeType
    rw [foldParams_numChannels]
    rcases mimeFormat m with _ | f
    · rfl
    · dsimp only
      split
      · split <;> rfl
      · rfl
  · intro m hm
    unfold parseMimeType
    rw [foldParams_bits]
    unfold bitsExplicit at hm
    rcases h : mimeFormat m with _ | f
    · rfl
    · rw [h] at hm
      dsimp only at hm ⊢
      split
      · rename_i hL
        rw [if_pos hL] at hm
        rw [hm]
      · rfl
  · intro m hm
    unfold effectiveSampleRate
    rw [hm]

/-- Witness instantiating the universally quantified parts of the C6 theorem
at the bare descriptor "audio/pcm", which encodes neither a bit depth nor a
rate. -/
theorem parse_mime_descriptor_spec_witness :
    (parseMimeType mimePcmBare).numChannels = 1 ∧
      (parseMimeType mimePcmBare).bitsPerSample = 16 ∧
      effectiveSampleRate mimePcmBare = 24000 :=
  ⟨parse_mime_descriptor_spec.2.2.1 mimePcmBare,
    parse_mime_descriptor_spec.2.2.2.1 mimePcmBare (by decide),
    parse_mime_descriptor_spec.2.2.2.2 mimePcmBare (by decide)⟩

/-! ## Claim C7: zero-sample fragments are skipped harmlessly -/

theorem schedulePass_skip_empty (now : ℚ) (c : AudioChunk)
    (hc : pcm16bitToFloat32 c.data = []) :
    ∀ (xs ys : List AudioChunk) (next? : Option ℚ),
      schedulePass now (xs ++ c :: ys) next? = schedulePass now (xs ++ ys) next? := by
  intro xs
  induction xs with
  | nil =>
      intro ys next?
      simp only [List.nil_append]
      rw [schedulePass]
      simp [hc]
  | cons x xt ih =>
      intro ys next?
      simp only [List.cons_append]
      by_cases hz : (pcm16bitToFloat32 x.data).length = 0
      · rw [schedulePass, if_pos hz, schedulePass, if_pos hz, ih]
      · rw [schedulePass, if_neg hz, schedulePass, if_neg hz]
        simp only [ih]

/-- Claim C7: a fragment that decodes to zero samples is skipped — the pass
behaves exactly as if the fragment were absent (same scheduled buffers, same
final cursor, so the cursor is not advanced by it and the following
fragments are still scheduled in the same pass) — while the request's
scheduled-chunk count still advances past every received fragment, so the
pipeline never stalls. -/
theorem zero_sample_fragment_skipped (now : ℚ) (c : AudioChunk)
    (hc : pcm16bitToFloat32 c.data = []) :
    (∀ (xs ys : List AudioChunk) (next? : Option ℚ),
        schedulePass now (xs ++ c :: ys) next? = schedulePass now (xs ++ ys) next?) ∧
      (∀ r : QueuedSpeechRequest,
        (scheduleNewChunksReq now r).req.scheduledChunkCount =
          max r.scheduledChunkCount r.audioChunks.length) :=
  ⟨schedulePass_skip_empty now c hc, fun _ => rfl⟩

def emptyPcmData : String := "AA=="

def emptyPcmChunk : AudioChunk := { data := emptyPcmData, mimeType := defaultMime, chunkIndex := 0 }

def goodPcmData : String := "AAAAAAAA"

def goodChunk10 (i : Nat) (d : String) : AudioChunk :=
  { data := d, mimeType := "audio/L16;rate=10", chunkIndex := i }

/-- Witness for the C7 theorem: the single byte encoded by "AA==" makes the
Int16Array constructor throw, so the fragment decodes to zero samples; a
pass over [empty, good] schedules exactly what a pass over [good] would,
and the empty fragment is still counted as scheduled. -/
theorem zero_sample_fragment_skipped_witness :
    pcm16bitToFloat32 emptyPcmData = [] ∧
      schedulePass 0 ([] ++ emptyPcmChunk :: [goodChunk10 1 goodPcmData]) none =
        schedulePass 0 ([] ++ [goodChunk10 1 goodPcmData]) none ∧
      (scheduleNewChunksReq 0
          { text := "w", audioChunks := [emptyPcmChunk] }).req.scheduledChunkCount = 1 :=
  ⟨by decide,
    (zero_sample_fragment_skipped 0 emptyPcmChunk (by decide)).1 [] [goodChunk10 1 goodPcmData] none,
    by
      rw [(zero_sample_fragment_skipped 0 emptyPcmChunk (by decide)).2
        { text := "w", audioChunks := [emptyPcmChunk] }]
      decide⟩

/-! ## Shared concrete material for closed statements -/

def realEnv : Env := { connectOk := true, sendOk := true }

def failEnv : Env := { connectOk := false, sendOk := true }

def mimeL16rate10 : String := "audio/L16;rate=10"

/-- Ten zero bytes of base64: five 16-bit samples, 0.5 s at 10 Hz. -/
def halfSecData : String := "AAAAAAAAAAAAAA=="

/-- Six zero bytes of base64: three 16-bit samples, 0.3 s at 10 Hz. -/
def threeTenthsData : String := "AAAAAAAA"

def scenChunk1 : AudioChunk := { data := halfSecData, mimeType := mimeL16rate10, chunkIndex := 0 }

def scenChunk2 : AudioChunk := { data := threeTenthsData, mimeType := mimeL16rate10, chunkIndex := 1 }

def scenRequest : QueuedSpeechRequest := { text := "s", audioChunks := [scenChunk1, scenChunk2] }

/-- A transport message carrying one audio fragment. -/
def chunkMessage (d m : String) : ServerMessage :=
  { parts := [{ inlineData := some { data := d, mimeType := some m } }], turnComplete := false }

/-- A transport message carrying one audio fragment with no mime type. -/
def bareChunkMessage (d : String) : ServerMessage :=
  { parts := [{ inlineData := some { data := d, mimeType := none } }], turnComplete := false }

/-- A pure turn-completion message. -/
def tcMessage : ServerMessage := { parts := [], turnComplete := true }

/-- A message carrying both a fragment and the turn-complete flag. -/
def fullMessage (d : String) : ServerMessage :=
  { parts := [{ inlineData := some { data := d, mimeType := none } }], turnComplete := true }

/-! ## Claim C2: gapless scheduling (corrected) -/

/-- Counterexample to C2 as stated: the engine connects, one utterance is
spoken, a 0.5 s fragment arrives with the audio clock at 10 s (scheduled at
10.08 s, ending at 10.58 s), and a 0.3 s fragment of the same utterance
arrives five seconds later with the audio clock at 15 s.  The two fragments
are scheduled consecutively, yet the second starts at 15.005 s
(= now + safety margin), not at 10.58 s = start + duration of the first. -/
theorem gapless_scheduling_counterexample :
    (engineRun realEnv
        [.speak "hello",
          .message (chunkMessage halfSecData mimeL16rate10) 0 10,
          .message (chunkMessage threeTenthsData mimeL16rate10) 5000 15]
        connectedState).2 =
      [.sent "hello", .startedPlayback "hello",
        .scheduled { chunkIndex := 0, startAt := mkRat 252 25, duration := mkRat 1 2 },
        .scheduled { chunkIndex := 1, startAt := mkRat 3001 200, duration := mkRat 3 10 }] ∧
      (mkRat 252 25 : ℚ) = 10.08 ∧ (mkRat 3001 200 : ℚ) = 15.005 ∧
      (mkRat 3001 200 : ℚ) ≠ mkRat 252 25 + mkRat 1 2 := by
  refine ⟨by decide, by norm_num [Rat.mkRat_eq_div], by norm_num [Rat.mkRat_eq_div], ?_⟩
  rw [show (mkRat 252 25 + mkRat 1 2 : ℚ) = qadd (mkRat 252 25) (mkRat 1 2) from
    (qadd_eq _ _).symm]
  decide

/-- Claim C2, amended: fragments scheduled in the same scheduling pass abut
exactly (each starts where the previous ends); across passes, a fragment
starts at max(cursor, now + 0.005 s), which equals the cursor only while the
clock has not overtaken it; the first fragment of an utterance is primed at
now + 0.08 s; and the concrete two-fragment scenario (0.5 s and 0.3 s from
context time 10.000 s) yields starts 10.080 s and 10.580 s, ending at
10.880 s, exactly as claimed. -/
theorem gapless_scheduling_amended :
    (∀ (now : ℚ) (chunks : List AudioChunk) (next? : Option ℚ),
        (∀ c ∈ chunks, 0 < scheduleRate c) →
        List.Chain' (fun a b => b.startAt = a.startAt + a.duration)
          (schedulePass now chunks next?).2) ∧
      (∀ (now : ℚ) (chunks : List AudioChunk) (next? : Option ℚ) (e : ScheduledChunk),
        ((schedulePass now chunks next?).2).head? = some e →
        e.startAt = max (next?.getD (now + cursorFallback)) (now + safetyMargin)) ∧
      (∀ (now : ℚ) (r : QueuedSpeechRequest) (e : ScheduledChunk),
        ((startPlayingChunks now r).events).head? = some e →
        e.startAt = now + primingOffset) ∧
      (startPlayingChunks 10 scenRequest).events =
        [{ chunkIndex := 0, startAt := mkRat 252 25, duration := mkRat 1 2 },
          { chunkIndex := 1, startAt := mkRat 529 50, duration := mkRat 3 10 }] ∧
      (mkRat 252 25 : ℚ) = 10.08 ∧ (mkRat 529 50 : ℚ) = 10.58 ∧
      (mkRat 529 50 : ℚ) + mkRat 3 10 = 10.88 := by
  refine ⟨schedulePass_chain, schedulePass_head_start, ?_, by decide,
    by norm_num [Rat.mkRat_eq_div], by norm_num [Rat.mkRat_eq_div],
    by norm_num [Rat.mkRat_eq_div]⟩
  intro now r e he
  have h := schedulePass_head_start now _ _ e he
  rw [h]
  simp only [Option.getD_some, qadd_eq]
  exact max_eq_left (by
    apply add_le_add_left
    show safetyMargin ≤ primingOffset
    decide)

/-- Witness for the amended C2 theorem, instantiating the quantified parts
on the concrete scenario fragments. -/
theorem gapless_scheduling_amended_witness :
    List.Chain' (fun a b => b.startAt = a.startAt + a.duration)
        (schedulePass 10 [scenChunk1, scenChunk2] (some (qadd 10 primingOffset))).2 ∧
      (⟨0, mkRat 252 25, mkRat 1 2⟩ : ScheduledChunk).startAt = 10 + primingOffset :=
  ⟨gapless_scheduling_amended.1 10 [scenChunk1, scenChunk2]
      (some (qadd 10 primingOffset)) (by decide),
    gapless_scheduling_amended.2.2.1 10 scenRequest ⟨0, mkRat 252 25, mkRat 1 2⟩ (by decide)⟩

/-! ## Claim C4: lazy connect in processQueue (corrected) -/

/-- Counterexample to C4 as stated: after a disconnect, speak("t1") starts
queue processing with no session; the lazy connect() fails; yet no request
is rejected (the connect exception escapes processQueue as an unhandled
promise rejection) and queue processing is not re-invoked — the utterance
simply stays queued. -/
theorem connect_failure_counterexample :
    ((engineRun failEnv [.disconnectCall, .speak "t1"] connectedState).1.speechQueue.map
        (fun r => r.text)) = ["t1"] ∧
      rejectedList (engineRun failEnv [.disconnectCall, .speak "t1"] connectedState).2 = [] ∧
      (engineRun failEnv [.disconnectCall, .speak "t1"] connectedState).2 =
        [.closedSession, .closedContext, .connectError] := by
  refine ⟨by decide, by decide, by decide⟩

theorem sendLoop_all_fail (env : Env) (h : env.sendOk = false) :
    ∀ q : List QueuedSpeechRequest,
      sendLoop env q = ([], false, q.map (fun r => .rejected r.text errSend)) := by
  intro q
  induction q with
  | nil => rfl
  | cons r rest ih => rw [sendLoop, if_neg (by rw [h]; decide), ih]; rfl

/-- Claim C4, amended: when queue processing starts with no session it does
lazily connect(); but a connection failure escapes processQueue as an
exception — the head request is neither rejected nor removed (only the audio
graph allocated by the failed connect remains), and processing is not
re-invoked from this path.  A send failure, by contrast, rejects the head
and re-invokes processing, so with a persistently failing transport every
queued utterance gets its chance and is rejected in order. -/
theorem connect_failure_amended :
    (∀ (env : Env) (s : EngineState) (cur : QueuedSpeechRequest)
        (rest : List QueuedSpeechRequest),
        s.speechQueue = cur :: rest → s.isProcessingQueue = false →
        s.session = false → env.connectOk = false →
        processQueueE env s =
          ({ s with audioContextAlive := true, outputNode := true }, [.connectError])) ∧
      (∀ (env : Env) (s : EngineState),
        env.sendOk = false → s.session = true → s.isProcessingQueue = false →
        s.speechQueue ≠ [] →
        processQueueE env s =
          ({ s with speechQueue := [], isProcessingQueue := false },
            s.speechQueue.map (fun r => .rejected r.text errSend))) := by
  constructor
  · intro env s cur rest hq hp hs hc
    unfold processQueueE
    rw [if_neg (by simp [hp, hq])]
    unfold connectE
    simp [hs, hc]
  · intro env s hsend hs hp hq
    rcases s with ⟨se, ac, onode, wu, q, pr, cc, pc⟩
    simp only at hs hp
    subst hs
    subst hp
    cases q with
    | nil => exact absurd rfl hq
    | cons r rest =>
        unfold processQueueE processQueueConnected
        simp [sendLoop_all_fail env hsend]

/-- Witness for the amended C4 theorem: a concrete failed lazy connect
(leaving the head queued, unrejected) and a concrete failing transport
(rejecting both queued utterances in order). -/
theorem connect_failure_amended_witness :
    processQueueE failEnv
        { session := false, audioContextAlive := false, outputNode := false,
          isSessionWarmedUp := false, speechQueue := [{ text := "t1" }],
          isProcessingQueue := false, chunkCounter := 0, playbackCursor := 0 } =
      ({ session := false, audioContextAlive := true, outputNode := true,
          isSessionWarmedUp := false, speechQueue := [{ text := "t1" }],
          isProcessingQueue := false, chunkCounter := 0, playbackCursor := 0 },
        [.connectError]) ∧
      processQueueE { connectOk := true, sendOk := false }
          { connectedState with speechQueue := [{ text := "a" }, { text := "b" }] } =
        ({ connectedState with speechQueue := [], isProcessingQueue := false },
          [.rejected "a" errSend, .rejected "b" errSend]) :=
  ⟨connect_failure_amended.1 failEnv _ { text := "t1" } [] rfl rfl rfl rfl,
    connect_failure_amended.2 { connectOk := true, sendOk := false } _ rfl rfl rfl (by decide)⟩

/-! ## Claim C5: disconnect rejects everything and is repeatable -/

/-- Claim C5: disconnect() closes the session and audio graph and clears
every resource field unconditionally, rejects every queued utterance — the
in-flight head and all pending ones, N in total — with the disconnection
error, leaves the queue empty, and a second call is harmless (it returns the
same reset state and rejects nothing). -/
theorem disconnect_spec (s : EngineState) :
    (disconnectE s).1.speechQueue = [] ∧
      (disconnectE s).1.session = false ∧
      (disconnectE s).1.audioContextAlive = false ∧
      (disconnectE s).1.outputNode = false ∧
      (disconnectE s).1.isProcessingQueue = false ∧
      rejectedList (disconnectE s).2 =
        s.speechQueue.map (fun r => (r.text, errDisconnected)) ∧
      (rejectedList (disconnectE s).2).length = s.speechQueue.length ∧
      disconnectE (disconnectE s).1 = ((disconnectE s).1, []) := by
  have key : rejectedList (disconnectE s).2 =
      s.speechQueue.map (fun r => (r.text, errDisconnected)) := by
    unfold disconnectE rejectedList
    simp only [List.filterMap_append]
    have h1 : ∀ b : Bool,
        List.filterMap
          (fun a => match a with | EngineAction.rejected t r => some (t, r) | _ => none)
          (if b then [EngineAction.closedSession] else []) = [] := by
      intro b; cases b <;> rfl
    have h2 : ∀ b : Bool,
        List.filterMap
          (fun a => match a with | EngineAction.rejected t r => some (t, r) | _ => none)
          (if b then [EngineAction.closedContext] else []) = [] := by
      intro b; cases b <;> rfl
    rw [h1, h2]
    simp only [List.nil_append]
    induction s.speechQueue with
    | nil => rfl
    | cons r rest ih => simp only [List.map_cons, List.filterMap_cons, ih]
  refine ⟨rfl, rfl, rfl, rfl, rfl, key, ?_, rfl⟩
  rw [key, List.length_map]

/-! ## Claim C8: connect is idempotent -/

/-- Claim C8: calling connect() with a live session is a pure no-op apart
from a console warning — the state (session, audio graph, queue, all of it)
is returned unchanged and no second connection is attempted. -/
theorem connect_idempotent (env : Env) (s : EngineState) (h : s.session = true) :
    connectE env s = (s, [.warned warnAlreadyConnected], true) := by
  unfold connectE
  rw [if_pos h]

/-- Witness: a second connect() on a freshly connected engine. -/
theorem connect_idempotent_witness :
    connectE realEnv connectedState = (connectedState, [.warned warnAlreadyConnected], true) :=
  connect_idempotent realEnv connectedState rfl

/-! ## Claim C10: inbound messages on an empty queue are ignored -/

/-- Claim C10: any transport message processed while the utterance queue is
empty leaves the engine state exactly as it was and emits nothing — carried
fragments are discarded, never buffered, and a turn-complete flag is
ignored. -/
theorem message_ignored_when_queue_empty (env : Env) (msg : ServerMessage)
    (t : Int) (now : ℚ) (s : EngineState) (h : s.speechQueue = []) :
    engineStep env (.message msg t now) s = (s, []) := by
  show processMessageE env msg t now s = (s, [])
  unfold processMessageE
  rw [h]

/-- Witness: a message carrying both a fragment and turn-complete, processed
by a connected engine with an empty queue, changes nothing. -/
theorem message_ignored_when_queue_empty_witness :
    engineStep realEnv (.message (fullMessage threeTenthsData) 5 0) connectedState =
      (connectedState, []) :=
  message_ignored_when_queue_empty realEnv (fullMessage threeTenthsData) 5 0 connectedState rfl

/-! ## Claim C1: where resolutions can come from -/

theorem scheduleNewChunksReq_text (now : ℚ) (r : QueuedSpeechRequest) :
    (scheduleNewChunksReq now r).req.text = r.text := rfl

theorem scheduleNewChunksReq_lastChunkTs (now : ℚ) (r : QueuedSpeechRequest) :
    (scheduleNewChunksReq now r).req.lastChunkTs = r.lastChunkTs := rfl

theorem startPlayingChunks_text (now : ℚ) (r : QueuedSpeechRequest) :
    (startPlayingChunks now r).req.text = r.text := rfl

theorem startPlayingChunks_lastChunkTs (now : ℚ) (r : QueuedSpeechRequest) :
    (startPlayingChunks now r).req.lastChunkTs = r.lastChunkTs := rfl

theorem sendLoop_no_resolved (env : Env) :
    ∀ (q : List QueuedSpeechRequest) (x : String),
      EngineAction.resolved x ∉ (sendLoop env q).2.2 := by
  intro q
  induction q with
  | nil => intro x h; simp [sendLoop] at h
  | cons r rest ih =>
      intro x h
      rw [sendLoop] at h
      by_cases hs : env.sendOk = true
      · rw [if_pos hs] at h
        simp at h
      · rw [if_neg hs] at h
        rcases List.mem_cons.mp h with h | h
        · exact EngineAction.noConfusion h
        · exact ih x h

theorem connectE_no_resolved (env : Env) (s : EngineState) (x : String) :
    EngineAction.resolved x ∉ (connectE env s).2.1 := by
  intro h
  unfold connectE at h
  split at h
  · simp at h
  · split at h <;> simp at h

theorem processQueueE_no_resolved (env : Env) (s : EngineState) (x : String) :
    EngineAction.resolved x ∉ (processQueueE env s).2 := by
  intro h
  unfold processQueueE at h
  split at h
  · simp at h
  · split at h
    · exact sendLoop_no_resolved env s.speechQueue x h
    · dsimp only at h
      split at h
      · rcases List.mem_append.mp h with h | h
        · exact connectE_no_resolved env s x h
        · simp at h
      · split at h
        · split at h
          · exact connectE_no_resolved env s x h
          · rcases List.mem_append.mp h with h | h
            · exact connectE_no_resolved env s x h
            · simp at h
        · exact sendLoop_no_resolved env _ x h

theorem finishCurrentE_resolved (env : Env) (s : EngineState) (x : String)
    (h : EngineAction.resolved x ∈ (finishCurrentE env s).2) :
    ∃ r rest, s.speechQueue = r :: rest ∧ x = r.text := by
  unfold finishCurrentE at h
  rcases hq : s.speechQueue with _ | ⟨r, rest⟩
  · rw [hq] at h
    exact absurd h (processQueueE_no_resolved env _ x)
  · rw [hq] at h
    dsimp only at h
    rcases List.mem_cons.mp h with h | h
    · refine ⟨r, rest, rfl, ?_⟩
      injection h
    · exact absurd h (processQueueE_no_resolved env _ x)

theorem schedActions_no_resolved (txt : String) (o : SchedOut) (x : String) :
    EngineAction.resolved x ∉ schedActions txt o := by
  intro h
  unfold schedActions at h
  rcases List.mem_append.mp h with h | h
  · split at h <;> simp at h
  · rcases List.mem_map.mp h with ⟨c, _, hc⟩
    exact EngineAction.noConfusion hc

theorem processMessageE_no_resolved (env : Env) (msg : ServerMessage) (t : Int)
    (now : ℚ) (s : EngineState) (x : String) (hctx : s.audioContextAlive = true) :
    EngineAction.resolved x ∉ (processMessageE env msg t now s).2 := by
  intro h
  unfold processMessageE at h
  rcases hq : s.speechQueue with _ | ⟨cur, rest⟩
  · rw [hq] at h
    simp at h
  · rw [hq] at h
    dsimp only at h
    rcases hdm : messageChunkData msg with _ | dm
    · rw [hdm] at h
      dsimp only at h
      split at h
      · split at h <;> simp at h
      · simp at h
    · rw [hdm] at h
      dsimp only at h
      rw [if_pos hctx] at h
      dsimp only at h
      split at h <;>
        · rcases List.mem_append.mp h with h2 | h2 <;>
            exact schedActions_no_resolved _ _ x h2

theorem chunkEndedE_no_resolved (t : Int) (s : EngineState) (x : String) :
    EngineAction.resolved x ∉ (chunkEndedE t s).2 := by
  intro h
  unfold chunkEndedE at h
  split at h <;> simp at h

theorem timerFireE_resolved (env : Env) (t : Int) (now : ℚ) (s : EngineState)
    (x : String) (hctx : s.audioContextAlive = true)
    (h : EngineAction.resolved x ∈ (timerFireE env t now s).2) :
    ∃ cur rest, s.speechQueue = cur :: rest ∧ cur.finishTimer.isSome ∧
      finishReady (scheduleNewChunksReq now { cur with finishTimer := none }).req t = true ∧
      x = cur.text := by
  unfold timerFireE at h
  rcases hq : s.speechQueue with _ | ⟨cur, rest⟩
  · rw [hq] at h
    simp at h
  · rw [hq] at h
    dsimp only at h
    rcases hft : cur.finishTimer with _ | ft
    · rw [hft] at h
      simp at h
    · rw [hft] at h
      rw [if_pos hctx] at h
      by_cases hr :
          finishReady (scheduleNewChunksReq now { cur with finishTimer := none }).req t = true
      · rw [if_pos hr] at h
        rcases List.mem_append.mp h with h | h
        · exact absurd h (schedActions_no_resolved _ _ x)
        · rcases finishCurrentE_resolved env _ x h with ⟨r, rest2, hq2, hx⟩
          refine ⟨cur, rest, rfl, by rw [hft]; rfl, hr, ?_⟩
          have hr2 : (scheduleNewChunksReq now { cur with finishTimer := none }).req = r := by
            have := congrArg List.head? hq2
            simpa using this
          rw [hx, ← hr2, scheduleNewChunksReq_text]
      · rw [if_neg hr] at h
        exact absurd h (schedActions_no_resolved _ _ x)

theorem carriesChunk_iff_data (msg : ServerMessage) :
    carriesChunk msg = true ↔ (messageChunkData msg).isSome = true := by
  unfold carriesChunk messageChunkData
  rcases hp : msg.parts.head? with _ | p
  · simp
  · rcases hd : p.inlineData with _ | d
    · simp [hd]
    · by_cases he : d.data.data = [] <;> simp [hd, he]

/-- Shape of a processMessage step that carries a fragment (audio context
present): the head request gains the fragment and the arrival stamp, a
pending idle timer is cancelled — re-armed at t + grace when the same
message also signals turn completion — and nothing else in the engine
changes except the fragment counter. -/
theorem processMessageE_chunk_shape (env : Env) (msg : ServerMessage) (t : Int)
    (now : ℚ) (s : EngineState) (cur : QueuedSpeechRequest)
    (rest : List QueuedSpeechRequest) (dm : String × String)
    (hctx : s.audioContextAlive = true) (hq : s.speechQueue = cur :: rest)
    (hmd : messageChunkData msg = some dm) :
    ∃ h : QueuedSpeechRequest,
      (processMessageE env msg t now s).1 =
          { s with speechQueue := h :: rest, chunkCounter := s.chunkCounter + 1 } ∧
        h.text = cur.text ∧
        h.lastChunkTs = some t ∧
        h.finishTimer = (if msg.turnComplete then some (t + idleFinishMs) else none) ∧
        h.audioChunks =
          cur.audioChunks ++ [{ data := dm.1, mimeType := dm.2, chunkIndex := s.chunkCounter }] ∧
        h.isComplete = (cur.isComplete || msg.turnComplete) := by
  rcases cur with ⟨ctext, cchunks, cplay, csched, cend, ccomp, cnext, ctimer, clast, cstart⟩
  unfold processMessageE
  rw [hq]
  dsimp only
  rw [hmd]
  dsimp only
  rw [if_pos hctx]
  cases cplay <;> cases htc : msg.turnComplete <;>
    refine ⟨_, rfl, rfl, rfl, rfl, rfl, ?_⟩ <;> simp <;> exact rfl

/-- Shape of a processMessage step that carries no fragment: state unchanged
except that a turn-complete flag marks the head complete and arms the idle
timer; no observable actions. -/
theorem processMessageE_nochunk_shape (env : Env) (msg : ServerMessage) (t : Int)
    (now : ℚ) (s : EngineState) (cur : QueuedSpeechRequest)
    (rest : List QueuedSpeechRequest)
    (hq : s.speechQueue = cur :: rest) (hmd : messageChunkData msg = none) :
    processMessageE env msg t now s =
      ((if msg.turnComplete then
          { s with speechQueue :=
              { cur with isComplete := true, finishTimer := some (t + idleFinishMs) } :: rest }
        else s), []) := by
  unfold processMessageE
  rw [hq]
  dsimp only
  rw [hmd]
  dsimp only
  cases htc : msg.turnComplete
  · rfl
  · rw [hq]
    rfl

def deferTracePre : List EngineEvent :=
  [.speak "a", .message (bareChunkMessage threeTenthsData) 900 0, .message tcMessage 1000 0]

def deferTraceMid : List EngineEvent :=
  deferTracePre ++ [.message (bareChunkMessage threeTenthsData) 1050 (mkRat 1 10)]

def deferTraceChecked : List EngineEvent :=
  deferTraceMid ++ [.chunkEnded 1060, .timerFire 1270 (mkRat 15 100)]

def deferTraceDone : List EngineEvent :=
  deferTraceChecked ++ [.chunkEnded 1300, .timerFire 1500 2]

/-- Claim C1: (1) a step resolves an utterance only when it is a firing of a
pending idle-check timer whose re-examined request satisfies, at that
moment, every condition at once: turn-complete received, at least the grace
window since the last fragment arrived, all received fragments scheduled,
all scheduled fragments ended (at least one of each), and at least one
fragment received.  (2) A fragment arrival cancels a pending idle timer
(re-arming it relative to the arrival only when the same message carries
turn-complete).  (3) Concretely: turn-complete at t = 1000 arms the check
for t = 1200, a fragment 50 ms later cancels it; an idle check that finds a
scheduled fragment still playing re-arms instead of resolving; and the
utterance resolves only at a later check, past the grace window after the
last fragment (1500 ≥ 1050 + 200). -/
theorem utterance_resolution_discipline :
    (∀ (env : Env) (e : EngineEvent) (s : EngineState) (x : String),
        s.audioContextAlive = true →
        EngineAction.resolved x ∈ (engineStep env e s).2 →
        ∃ (t : Int) (now : ℚ) (cur : QueuedSpeechRequest) (rest : List QueuedSpeechRequest),
          e = .timerFire t now ∧ s.speechQueue = cur :: rest ∧ cur.finishTimer.isSome = true ∧
          (∃ r1 : QueuedSpeechRequest,
            r1 = (scheduleNewChunksReq now { cur with finishTimer := none }).req ∧
              r1.isComplete = true ∧
              idleFinishMs ≤ t - r1.lastChunkTs.getD 0 ∧
              r1.audioChunks.length ≤ r1.scheduledChunkCount ∧
              r1.scheduledChunkCount ≤ r1.endedChunkCount ∧
              0 < r1.scheduledChunkCount ∧
              0 < r1.audioChunks.length) ∧
          x = cur.text) ∧
      (∀ (env : Env) (msg : ServerMessage) (t : Int) (now : ℚ) (s : EngineState)
          (cur : QueuedSpeechRequest) (rest : List QueuedSpeechRequest),
        s.audioContextAlive = true → s.speechQueue = cur :: rest →
        carriesChunk msg = true →
        ∃ h : QueuedSpeechRequest,
          (processMessageE env msg t now s).1.speechQueue = h :: rest ∧
            h.finishTimer = (if msg.turnComplete then some (t + idleFinishMs) else none) ∧
            h.lastChunkTs = some t ∧ h.text = cur.text) ∧
      (engineRun realEnv deferTracePre connectedState).1.speechQueue.map
          (fun r => r.finishTimer) = [some 1200] ∧
      (engineRun realEnv deferTraceMid connectedState).1.speechQueue.map
          (fun r => r.finishTimer) = [none] ∧
      resolvedTexts (engineRun realEnv deferTraceChecked connectedState).2 = [] ∧
      (engineRun realEnv deferTraceChecked connectedState).1.speechQueue.map
          (fun r => r.finishTimer) = [some 1470] ∧
      resolvedTexts (engineRun realEnv deferTraceDone connectedState).2 = ["a"] ∧
      (1050 : Int) + idleFinishMs ≤ 1500 := by
  refine ⟨?_, ?_, by decide, by decide, by decide, by decide, by decide, by decide⟩
  · intro env e s x hctx h
    cases e with
    | speak txt =>
        exfalso
        replace h : EngineAction.resolved x ∈ (speakE env txt s).2 := h
        unfold speakE at h
        split at h
        · simp at h
        · exact processQueueE_no_resolved env _ x h
    | connectCall =>
        exfalso
        replace h : EngineAction.resolved x ∈
            (if (connectE env s).2.2 then (connectE env s).2.1
              else (connectE env s).2.1 ++ [EngineAction.connectError]) := h
        split at h
        · exact connectE_no_resolved env s x h
        · rcases List.mem_append.mp h with h | h
          · exact connectE_no_resolved env s x h
          · simp at h
    | disconnectCall =>
        exfalso
        replace h : EngineAction.resolved x ∈ (disconnectE s).2 := h
        unfold disconnectE at h
        rcases List.mem_append.mp h with h | h
        · rcases List.mem_append.mp h with h | h
          · split at h <;> simp at h
          · split at h <;> simp at h
        · rcases List.mem_map.mp h with ⟨c, _, hc⟩
          exact EngineAction.noConfusion hc
    | message msg t now =>
        replace h : EngineAction.resolved x ∈ (processMessageE env msg t now s).2 := h
        exact absurd h (processMessageE_no_resolved env msg t now s x hctx)
    | chunkEnded t =>
        replace h : EngineAction.resolved x ∈ (chunkEndedE t s).2 := h
        exact absurd h (chunkEndedE_no_resolved t s x)
    | timerFire t now =>
        replace h : EngineAction.resolved x ∈ (timerFireE env t now s).2 := h
        rcases timerFireE_resolved env t now s x hctx h with ⟨cur, rest, hq, hft, hr, hx⟩
        refine ⟨t, now, cur, rest, rfl, hq, hft, ⟨_, rfl, ?_⟩, hx⟩
        have := hr
        unfold finishReady at this
        simp only [Bool.and_eq_true, decide_eq_true_eq] at this
        exact ⟨this.1.1.1.1, this.1.1.1.2, this.1.1.2, this.1.2.1, this.1.2.2, this.2⟩
  · intro env msg t now s cur rest hctx hq hcc
    have hsome := (carriesChunk_iff_data msg).mp hcc
    rcases hmd : messageChunkData msg with _ | dm
    · rw [hmd] at hsome
      simp at hsome
    · rcases processMessageE_chunk_shape env msg t now s cur rest dm hctx hq hmd with
        ⟨h, hstate, htext, hlast, htimer, _, _⟩
      exact ⟨h, by rw [hstate], htimer, hlast, htext⟩

/-- A request meeting every finish condition at wall time 1300. -/
def readyRequest : QueuedSpeechRequest :=
  { text := "a",
    audioChunks := [{ data := threeTenthsData, mimeType := defaultMime, chunkIndex := 0 }],
    isPlaying := true, scheduledChunkCount := 1, endedChunkCount := 1,
    isComplete := true, nextStartAt := some 1, finishTimer := some 1200,
    lastChunkTs := some 900, hasStarted := true }

def readyState : EngineState := { connectedState with speechQueue := [readyRequest] }

/-- A request whose idle timer is pending when a fragment arrives. -/
def pendingTimerRequest : QueuedSpeechRequest :=
  { text := "a", isComplete := true, finishTimer := some 1200 }

def pendingTimerState : EngineState :=
  { connectedState with speechQueue := [pendingTimerRequest] }

/-- Witness for the C1 theorem: its first part applied to a concrete state
whose head request meets every finish condition at a timer firing, and its
second part applied to a fragment arriving while an idle timer is pending. -/
theorem utterance_resolution_discipline_witness :
    (∃ (t : Int) (now : ℚ) (cur : QueuedSpeechRequest) (rest : List QueuedSpeechRequest),
        (EngineEvent.timerFire 1300 0 : EngineEvent) = .timerFire t now ∧
          readyState.speechQueue = cur :: rest ∧
          cur.finishTimer.isSome = true ∧
          (∃ r1 : QueuedSpeechRequest,
            r1 = (scheduleNewChunksReq now { cur with finishTimer := none }).req ∧
              r1.isComplete = true ∧
              idleFinishMs ≤ t - r1.lastChunkTs.getD 0 ∧
              r1.audioChunks.length ≤ r1.scheduledChunkCount ∧
              r1.scheduledChunkCount ≤ r1.endedChunkCount ∧
              0 < r1.scheduledChunkCount ∧
              0 < r1.audioChunks.length) ∧
          "a" = cur.text) ∧
      (∃ h : QueuedSpeechRequest,
        (processMessageE realEnv (bareChunkMessage threeTenthsData) 1050 (mkRat 1 10)
              pendingTimerState).1.speechQueue = h :: [] ∧
          h.finishTimer =
            (if (bareChunkMessage threeTenthsData).turnComplete then
                some (1050 + idleFinishMs)
              else none) ∧
          h.lastChunkTs = some 1050 ∧
          h.text = pendingTimerRequest.text) :=
  ⟨utterance_resolution_discipline.1 realEnv (.timerFire 1300 0) readyState "a" rfl (by decide),
    utterance_resolution_discipline.2.1 realEnv (bareChunkMessage threeTenthsData) 1050
      (mkRat 1 10) pendingTimerState pendingTimerRequest [] rfl rfl (by decide)⟩

/-! ## Claim C9: turn-complete with no audio never resolves -/

theorem scheduleNewChunksReq_audioChunks (now : ℚ) (r : QueuedSpeechRequest) :
    (scheduleNewChunksReq now r).req.audioChunks = r.audioChunks := rfl

theorem processMessageE_empty (env : Env) (msg : ServerMessage) (t : Int) (now : ℚ)
    (s : EngineState) (h : s.speechQueue = []) :
    processMessageE env msg t now s = (s, []) := by
  unfold processMessageE
  rw [h]

theorem carriesChunk_false_none (msg : ServerMessage) (h : carriesChunk msg = false) :
    messageChunkData msg = none := by
  rcases hmd : messageChunkData msg with _ | dm
  · rfl
  · have := (carriesChunk_iff_data msg).mpr (by rw [hmd]; rfl)
    rw [h] at this
    exact Bool.noConfusion this

theorem sendLoop_mem (env : Env) :
    ∀ (q : List QueuedSpeechRequest) (r : QueuedSpeechRequest),
      r ∈ (sendLoop env q).1 → r ∈ q := by
  intro q
  induction q with
  | nil => intro r h; rw [sendLoop] at h; exact absurd h (List.not_mem_nil r)
  | cons a rest ih =>
      intro r h
      rw [sendLoop] at h
      by_cases hs : env.sendOk = true
      · rw [if_pos hs] at h
        exact h
      · rw [if_neg hs] at h
        exact List.mem_cons_of_mem a (ih r h)

/-- With a live session, processQueue only drops requests from the queue
(never adds or edits them) and toggles the in-flight flag. -/
theorem processQueueE_session_state (env : Env) (s : EngineState)
    (hsess : s.session = true) :
    ∃ (q' : List QueuedSpeechRequest) (b : Bool),
      (processQueueE env s).1 = { s with speechQueue := q', isProcessingQueue := b } ∧
        ∀ r ∈ q', r ∈ s.speechQueue := by
  unfold processQueueE
  split
  · exact ⟨s.speechQueue, s.isProcessingQueue, rfl, fun r hr => hr⟩
  · exact ⟨(sendLoop env s.speechQueue).1, (sendLoop env s.speechQueue).2.1, rfl,
      fun r hr => sendLoop_mem env s.speechQueue r hr⟩

theorem finishReady_no_chunks (r : QueuedSpeechRequest) (t : Int)
    (h : r.audioChunks = []) : finishReady r t = false := by
  unfold finishReady
  rw [h]
  simp

/-- Event filter for the C9 scenario: no fragment is ever delivered and the
engine is not torn down. -/
def noChunkEvent : EngineEvent → Bool
  | .message msg _ _ => !carriesChunk msg
  | .disconnectCall => false
  | _ => true

/-- Invariant backing C9: connected browser engine, every queued request has
received no fragment, and every turn-completed request has a pending idle
timer. -/
def C9Inv (s : EngineState) : Prop :=
  s.audioContextAlive = true ∧ s.session = true ∧
    ∀ r ∈ s.speechQueue,
      r.audioChunks = [] ∧ (r.isComplete = true → r.finishTimer.isSome = true)

theorem c9_step (env : Env) (e : EngineEvent) (s : EngineState)
    (hinv : C9Inv s) (he : noChunkEvent e = true) :
    C9Inv (engineStep env e s).1 ∧
      ∀ x, EngineAction.resolved x ∉ (engineStep env e s).2 := by
  obtain ⟨hctx, hsess, hreq⟩ := hinv
  cases e with
  | speak txt =>
      constructor
      · show C9Inv (speakE env txt s).1
        unfold speakE
        split
        · exact ⟨hctx, hsess, hreq⟩
        · rcases processQueueE_session_state env
              { s with speechQueue := s.speechQueue ++ [{ text := txt }] } hsess with
            ⟨q', b, hst, hmem⟩
          rw [hst]
          refine ⟨hctx, hsess, fun r hr => ?_⟩
          rcases List.mem_append.mp (hmem r hr) with h2 | h2
          · exact hreq r h2
          · rcases List.mem_singleton.mp h2 with rfl
            exact ⟨rfl, fun hc => Bool.noConfusion hc⟩
      · intro x
        show EngineAction.resolved x ∉ (speakE env txt s).2
        intro h
        unfold speakE at h
        split at h
        · simp at h
        · exact processQueueE_no_resolved env _ x h
  | connectCall =>
      have hconn : connectE env s = (s, [.warned warnAlreadyConnected], true) := by
        unfold connectE
        rw [if_pos hsess]
      constructor
      · show C9Inv (connectE env s).1
        rw [hconn]
        exact ⟨hctx, hsess, hreq⟩
      · intro x h
        replace h : EngineAction.resolved x ∈
            (if (connectE env s).2.2 then (connectE env s).2.1
              else (connectE env s).2.1 ++ [EngineAction.connectError]) := h
        rw [hconn] at h
        simp at h
  | disconnectCall => exact absurd he (by simp [noChunkEvent])
  | message msg t now =>
      have hmd : messageChunkData msg = none :=
        carriesChunk_false_none msg (by
          have := he
          unfold noChunkEvent at this
          simpa using this)
      rcases hq : s.speechQueue with _ | ⟨cur, rest⟩
      · have hms := processMessageE_empty env msg t now s hq
        constructor
        · show C9Inv (processMessageE env msg t now s).1
          rw [hms]
          exact ⟨hctx, hsess, hreq⟩
        · intro x h
          replace h : EngineAction.resolved x ∈ (processMessageE env msg t now s).2 := h
          rw [hms] at h
          simp at h
      · have hms := processMessageE_nochunk_shape env msg t now s cur rest hq hmd
        constructor
        · show C9Inv (processMessageE env msg t now s).1
          rw [hms]
          split
          · refine ⟨hctx, hsess, fun r hr => ?_⟩
            rcases List.mem_cons.mp hr with rfl | h2
            · exact ⟨(hreq cur (hq ▸ List.mem_cons_self cur rest)).1, fun _ => rfl⟩
            · exact hreq r (hq ▸ List.mem_cons_of_mem cur h2)
          · exact ⟨hctx, hsess, hreq⟩
        · intro x h
          replace h : EngineAction.resolved x ∈ (processMessageE env msg t now s).2 := h
          rw [hms] at h
          simp at h
  | timerFire t now =>
      rcases hq : s.speechQueue with _ | ⟨cur, rest⟩
      · have hfe : timerFireE env t now s = (s, []) := by
          unfold timerFireE
          rw [hq]
        constructor
        · show C9Inv (timerFireE env t now s).1
          rw [hfe]
          exact ⟨hctx, hsess, hreq⟩
        · intro x h
          replace h : EngineAction.resolved x ∈ (timerFireE env t now s).2 := h
          rw [hfe] at h
          simp at h
      · rcases hft : cur.finishTimer with _ | ft
        · have hfe : timerFireE env t now s = (s, []) := by
            unfold timerFireE
            rw [hq]
            dsimp only
            rw [hft]
          constructor
          · show C9Inv (timerFireE env t now s).1
            rw [hfe]
            exact ⟨hctx, hsess, hreq⟩
          · intro x h
            replace h : EngineAction.resolved x ∈ (timerFireE env t now s).2 := h
            rw [hfe] at h
            simp at h
        · have hchunks : cur.audioChunks = [] :=
            (hreq cur (hq ▸ List.mem_cons_self cur rest)).1
          have hready :
              finishReady (scheduleNewChunksReq now { cur with finishTimer := none }).req t =
                false := by
            apply finishReady_no_chunks
            rw [scheduleNewChunksReq_audioChunks]
            exact hchunks
          have hfe : timerFireE env t now s =
              ({ s with speechQueue :=
                  { (scheduleNewChunksReq now { cur with finishTimer := none }).req with
                      finishTimer := some (t + idleFinishMs) } :: rest },
                schedActions cur.text
                  (scheduleNewChunksReq now { cur with finishTimer := none })) := by
            unfold timerFireE
            rw [hq]
            dsimp only
            rw [hft]
            dsimp only
            rw [if_pos hctx]
            rw [if_neg (by rw [hready]; exact Bool.false_ne_true)]
          constructor
          · show C9Inv (timerFireE env t now s).1
            rw [hfe]
            refine ⟨hctx, hsess, fun r hr => ?_⟩
            rcases List.mem_cons.mp hr with rfl | h2
            · refine ⟨?_, fun _ => rfl⟩
              show (scheduleNewChunksReq now { cur with finishTimer := none }).req.audioChunks = []
              rw [scheduleNewChunksReq_audioChunks]
              exact hchunks
            · exact hreq r (hq ▸ List.mem_cons_of_mem cur h2)
          · intro x h
            replace h : EngineAction.resolved x ∈ (timerFireE env t now s).2 := h
            rw [hfe] at h
            exact schedActions_no_resolved _ _ x h
  | chunkEnded t =>
      rcases hq : s.speechQueue with _ | ⟨cur, rest⟩
      · have hfe : chunkEndedE t s = (s, []) := by
          unfold chunkEndedE
          rw [hq]
        constructor
        · show C9Inv (chunkEndedE t s).1
          rw [hfe]
          exact ⟨hctx, hsess, hreq⟩
        · intro x h
          replace h : EngineAction.resolved x ∈ (chunkEndedE t s).2 := h
          rw [hfe] at h
          simp at h
      · have hcurmem := hreq cur (hq ▸ List.mem_cons_self cur rest)
        cases hic : cur.isComplete
        · have hfe : chunkEndedE t s =
              ({ s with speechQueue :=
                  { cur with endedChunkCount := cur.endedChunkCount + 1 } :: rest }, []) := by
            unfold chunkEndedE
            rw [hq]
            dsimp only
            rw [hic]
            rfl
          constructor
          · show C9Inv (chunkEndedE t s).1
            rw [hfe]
            refine ⟨hctx, hsess, fun r hr => ?_⟩
            rcases List.mem_cons.mp hr with rfl | h2
            · exact ⟨hcurmem.1, fun hcontra => Bool.noConfusion (hic ▸ hcontra)⟩
            · exact hreq r (hq ▸ List.mem_cons_of_mem cur h2)
          · intro x h
            replace h : EngineAction.resolved x ∈ (chunkEndedE t s).2 := h
            rw [hfe] at h
            simp at h
        · have hfe : chunkEndedE t s =
              ({ s with
                  speechQueue :=
                    { cur with
                        endedChunkCount := cur.endedChunkCount + 1,
                        finishTimer := some (t + idleFinishMs) } :: rest }, []) := by
            unfold chunkEndedE
            rw [hq]
            dsimp only
            rw [hic]
            rfl
          constructor
          · show C9Inv (chunkEndedE t s).1
            rw [hfe]
            refine ⟨hctx, hsess, fun r hr => ?_⟩
            rcases List.mem_cons.mp hr with rfl | h2
            · exact ⟨hcurmem.1, fun _ => rfl⟩
            · exact hreq r (hq ▸ List.mem_cons_of_mem cur h2)
          · intro x h
            replace h : EngineAction.resolved x ∈ (chunkEndedE t s).2 := h
            rw [hfe] at h
            simp at h

theorem c9_run (env : Env) :
    ∀ (evs : List EngineEvent) (s : EngineState),
      (∀ e ∈ evs, noChunkEvent e = true) → C9Inv s →
      C9Inv (engineRun env evs s).1 ∧
        ∀ x, EngineAction.resolved x ∉ (engineRun env evs s).2 := by
  intro evs
  induction evs with
  | nil =>
      intro s _ hinv
      exact ⟨hinv, fun x h => by simp [engineRun] at h⟩
  | cons e rest ih =>
      intro s hall hinv
      have hstep := c9_step env e s hinv (hall e (List.mem_cons_self e rest))
      have hrest := ih (engineStep env e s).1
        (fun e2 h2 => hall e2 (List.mem_cons_of_mem e h2)) hstep.1
      refine ⟨hrest.1, fun x h => ?_⟩
      rw [engineRun] at h
      rcases List.mem_append.mp h with h | h
      · exact hstep.2 x h
      · exact hrest.2 x h

/-- Claim C9: if the backend signals turn-complete but no fragment is ever
received, the utterance never resolves — in any run of the connected engine
whose events deliver no fragment (and do not disconnect), no utterance is
ever resolved, and every turn-completed request always has a pending
idle-check timer (the check keeps failing its at-least-one-fragment
condition and re-arms forever), so only disconnect() can clear the queue. -/
theorem turn_complete_without_audio_never_resolves (env : Env)
    (evs : List EngineEvent) (hall : ∀ e ∈ evs, noChunkEvent e = true) :
    (∀ x, EngineAction.resolved x ∉ (engineRun env evs connectedState).2) ∧
      ∀ r ∈ (engineRun env evs connectedState).1.speechQueue,
        r.isComplete = true → r.finishTimer.isSome = true := by
  have h := c9_run env evs connectedState hall
    ⟨rfl, rfl, fun r hr => absurd hr (List.not_mem_nil r)⟩
  exact ⟨h.2, fun r hr hc => (h.1.2.2 r hr).2 hc⟩

/-- Witness for C9: an utterance is spoken, turn-complete arrives with no
audio, and two idle checks fire — nothing resolves and the head request
still has a pending timer. -/
theorem turn_complete_without_audio_never_resolves_witness :
    (∀ x, EngineAction.resolved x ∉
        (engineRun realEnv
            [.speak "a", .message tcMessage 100 0, .timerFire 300 0, .timerFire 500 0]
            connectedState).2) ∧
      ∀ r ∈ (engineRun realEnv
          [.speak "a", .message tcMessage 100 0, .timerFire 300 0, .timerFire 500 0]
          connectedState).1.speechQueue,
        r.isComplete = true → r.finishTimer.isSome = true :=
  turn_complete_without_audio_never_resolves realEnv
    [.speak "a", .message tcMessage 100 0, .timerFire 300 0, .timerFire 500 0]
    (by decide)

/-! ## Claim C3: strict FIFO processing with one utterance in flight -/

/-- Texts of the queued requests, head first. -/
def queueTexts (s : EngineState) : List String := s.speechQueue.map (fun r => r.text)

/-- Invariant of a connected engine in normal operation: the in-flight flag
is set exactly while the queue is nonempty (the head has been sent). -/
def C3Inv (s : EngineState) : Prop :=
  s.session = true ∧ s.audioContextAlive = true ∧
    s.isProcessingQueue = !s.speechQueue.isEmpty

/-- Scheduling-side actions: playback-start notifications and scheduled
buffers; they carry no promise settlement and no transport send. -/
def isSchedAction : EngineAction → Bool
  | .startedPlayback _ => true
  | .scheduled _ => true
  | _ => false

theorem sched_actions_texts :
    ∀ acts : List EngineAction, (∀ a ∈ acts, isSchedAction a = true) →
      resolvedTexts acts = [] ∧ sentTexts acts = [] := by
  intro acts
  induction acts with
  | nil => intro _; exact ⟨rfl, rfl⟩
  | cons a rest ih =>
      intro hall
      have ha := hall a (List.mem_cons_self a rest)
      have hr := ih fun b hb => hall b (List.mem_cons_of_mem a hb)
      cases a <;> simp [isSchedAction] at ha <;>
        exact ⟨by simpa [resolvedTexts, List.filterMap_cons] using hr.1,
          by simpa [sentTexts, List.filterMap_cons] using hr.2⟩

theorem schedActions_sched (txt : String) (o : SchedOut) :
    ∀ a ∈ schedActions txt o, isSchedAction a = true := by
  intro a ha
  unfold schedActions at ha
  rcases List.mem_append.mp ha with h | h
  · split at h
    · rcases List.mem_singleton.mp h with rfl
      rfl
    · exact absurd h (List.not_mem_nil a)
  · rcases List.mem_map.mp h with ⟨c, _, rfl⟩
    rfl

/-- Every action emitted by a processMessage step (audio context present) is
a scheduling-side action. -/
theorem processMessageE_actions_sched (env : Env) (msg : ServerMessage) (t : Int)
    (now : ℚ) (s : EngineState) (hctx : s.audioContextAlive = true) :
    ∀ a ∈ (processMessageE env msg t now s).2, isSchedAction a = true := by
  intro a h
  unfold processMessageE at h
  rcases hq : s.speechQueue with _ | ⟨cur, rest⟩
  · rw [hq] at h
    simp at h
  · rw [hq] at h
    dsimp only at h
    rcases hdm : messageChunkData msg with _ | dm
    · rw [hdm] at h
      dsimp only at h
      split at h
      · split at h <;> simp at h
      · simp at h
    · rw [hdm] at h
      dsimp only at h
      rw [if_pos hctx] at h
      dsimp only at h
      split at h <;>
        · rcases List.mem_append.mp h with h2 | h2 <;>
            exact schedActions_sched _ _ a h2

theorem resolvedTexts_append (a b : List EngineAction) :
    resolvedTexts (a ++ b) = resolvedTexts a ++ resolvedTexts b :=
  List.filterMap_append a b _

theorem sentTexts_append (a b : List EngineAction) :
    sentTexts (a ++ b) = sentTexts a ++ sentTexts b :=
  List.filterMap_append a b _

theorem spokenTexts_cons (e : EngineEvent) (l : List EngineEvent) :
    spokenTexts (e :: l) = spokenTexts [e] ++ spokenTexts l := by
  unfold spokenTexts
  rw [show (e :: l) = [e] ++ l from rfl, List.filterMap_append]

theorem processQueueE_queue_empty (env : Env) (s : EngineState)
    (hq : s.speechQueue = []) : processQueueE env s = (s, []) := by
  unfold processQueueE
  rw [if_pos (by simp [hq])]

theorem processQueueE_busy (env : Env) (s : EngineState)
    (hp : s.isProcessingQueue = true) : processQueueE env s = (s, []) := by
  unfold processQueueE
  rw [if_pos (by simp [hp])]

/-- With a session, a free queue and a working transport, processQueue sends
the head text and marks the queue in flight. -/
theorem processQueueE_send (env : Env) (s : EngineState) (r : QueuedSpeechRequest)
    (rest : List QueuedSpeechRequest) (hsend : env.sendOk = true)
    (hsess : s.session = true) (hp : s.isProcessingQueue = false)
    (hq : s.speechQueue = r :: rest) :
    processQueueE env s = ({ s with isProcessingQueue := true }, [.sent r.text]) := by
  unfold processQueueE
  rw [if_neg (by simp [hp, hq])]
  rw [if_pos hsess]
  unfold processQueueConnected
  rw [hq, sendLoop, if_pos hsend, ← hq]

/-- One step of a connected engine with a working transport preserves the
FIFO discipline: the resolved texts followed by the still-queued texts
account exactly for every utterance spoken so far, and a new send happens
only when the head slot frees up. -/
theorem c3_step (env : Env) (hsend : env.sendOk = true) (e : EngineEvent)
    (s : EngineState) (hnd : e ≠ .disconnectCall) (hinv : C3Inv s) :
    C3Inv (engineStep env e s).1 ∧
      resolvedTexts (engineStep env e s).2 ++ queueTexts (engineStep env e s).1 =
        queueTexts s ++ spokenTexts [e] ∧
      (queueTexts s).take 1 ++ sentTexts (engineStep env e s).2 =
        resolvedTexts (engineStep env e s).2 ++ (queueTexts (engineStep env e s).1).take 1 := by
  obtain ⟨hsess, hctx, hflag⟩ := hinv
  cases e with
  | speak txt =>
      by_cases hempty : (trimChars txt.data).isEmpty = true
      · have hyes : trimChars txt.data = [] := by simpa using hempty
        have hfe : engineStep env (.speak txt) s = (s, [.resolvedImmediately txt]) := by
          show speakE env txt s = _
          unfold speakE
          rw [if_pos hempty]
        rw [hfe]
        refine ⟨⟨hsess, hctx, hflag⟩, ?_, ?_⟩
        · simp [resolvedTexts, spokenTexts, hyes]
        · simp [sentTexts, resolvedTexts]
      · have hne : ¬trimChars txt.data = [] := by simpa using hempty
        have hfe : engineStep env (.speak txt) s =
            processQueueE env { s with speechQueue := s.speechQueue ++ [{ text := txt }] } := by
          show speakE env txt s = _
          unfold speakE
          rw [if_neg hempty]
        rcases hq : s.speechQueue with _ | ⟨r, rest⟩
        · have hp : s.isProcessingQueue = false := by rw [hflag, hq]; rfl
          have hsendq := processQueueE_send env
            { s with speechQueue := s.speechQueue ++ [{ text := txt }] }
            { text := txt } [] hsend hsess hp (by rw [hq]; rfl)
          rw [hfe, hsendq]
          refine ⟨⟨hsess, hctx, by simp [hp, hq]⟩, ?_, ?_⟩
          · simp [resolvedTexts, queueTexts, spokenTexts, hne, hq]
          · simp [sentTexts, resolvedTexts, queueTexts, hq]
        · have hp : s.isProcessingQueue = true := by rw [hflag, hq]; rfl
          have hb := processQueueE_busy env
            { s with speechQueue := s.speechQueue ++ [{ text := txt }] } hp
          rw [hfe, hb]
          refine ⟨⟨hsess, hctx, by simp [hp, hq]⟩, ?_, ?_⟩
          · simp [resolvedTexts, queueTexts, spokenTexts, hne, hq]
          · simp [sentTexts, resolvedTexts, queueTexts, hq]
  | connectCall =>
      have hconn : connectE env s = (s, [.warned warnAlreadyConnected], true) := by
        unfold connectE
        rw [if_pos hsess]
      have hfe : engineStep env .connectCall s = (s, [.warned warnAlreadyConnected]) := by
        show (let o := connectE env s
          (o.1, if o.2.2 then o.2.1 else o.2.1 ++ [EngineAction.connectError])) = _
        rw [hconn]
        rfl
      rw [hfe]
      refine ⟨⟨hsess, hctx, hflag⟩, ?_, ?_⟩
      · simp [resolvedTexts, spokenTexts]
      · simp [sentTexts, resolvedTexts]
  | disconnectCall => exact absurd rfl hnd
  | message msg t now =>
      have hsched := processMessageE_actions_sched env msg t now s hctx
      have htexts := sched_actions_texts _ hsched
      rcases hq : s.speechQueue with _ | ⟨cur, rest⟩
      · have hfe := processMessageE_empty env msg t now s hq
        replace hfe : engineStep env (.message msg t now) s = (s, []) := hfe
        rw [hfe]
        refine ⟨⟨hsess, hctx, hflag⟩, ?_, ?_⟩
        · simp [resolvedTexts, spokenTexts]
        · simp [sentTexts, resolvedTexts]
      · have hshape : ∃ h2 : QueuedSpeechRequest,
            (processMessageE env msg t now s).1 =
                { s with
                    speechQueue := h2 :: rest,
                    chunkCounter :=
                      if carriesChunk msg then s.chunkCounter + 1 else s.chunkCounter } ∧
              h2.text = cur.text := by
          rcases hmd : messageChunkData msg with _ | dm
          · have hcc : carriesChunk msg = false := by
              rcases hcc2 : carriesChunk msg with _ | _
              · rfl
              · have := (carriesChunk_iff_data msg).mp hcc2
                rw [hmd] at this
                exact Bool.noConfusion this
            have hn := processMessageE_nochunk_shape env msg t now s cur rest hq hmd
            rw [hcc]
            cases htc : msg.turnComplete
            · rw [htc] at hn
              refine ⟨cur, ?_, rfl⟩
              rw [hn, ← hq]
              rfl
            · rw [htc] at hn
              exact ⟨{ cur with isComplete := true, finishTimer := some (t + idleFinishMs) },
                by rw [hn]; rfl, rfl⟩
          · have hcc : carriesChunk msg = true :=
              (carriesChunk_iff_data msg).mpr (by rw [hmd]; rfl)
            rcases processMessageE_chunk_shape env msg t now s cur rest dm hctx hq hmd with
              ⟨h2, hst, htext, _, _, _, _⟩
            rw [hcc]
            exact ⟨h2, hst, htext⟩
        rcases hshape with ⟨h2, hst, htext⟩
        have hq1 : (engineStep env (.message msg t now) s).1 =
            { s with
                speechQueue := h2 :: rest,
                chunkCounter :=
                  if carriesChunk msg then s.chunkCounter + 1 else s.chunkCounter } := hst
        have hacts : resolvedTexts (engineStep env (.message msg t now) s).2 = [] ∧
            sentTexts (engineStep env (.message msg t now) s).2 = [] := htexts
        refine ⟨⟨by rw [hq1]; exact hsess, by rw [hq1]; exact hctx, ?_⟩, ?_, ?_⟩
        · rw [hq1]
          show s.isProcessingQueue = !(h2 :: rest).isEmpty
          rw [hflag, hq]
          rfl
        · rw [hacts.1, hq1]
          simp [queueTexts, hq, htext, spokenTexts]
        · rw [hacts.1, hacts.2, hq1]
          simp [queueTexts, hq, htext]
  | timerFire t now =>
      rcases hq : s.speechQueue with _ | ⟨cur, rest⟩
      · have hfe : timerFireE env t now s = (s, []) := by
          unfold timerFireE
          rw [hq]
        replace hfe : engineStep env (.timerFire t now) s = (s, []) := hfe
        rw [hfe]
        refine ⟨⟨hsess, hctx, hflag⟩, ?_, ?_⟩
        · simp [resolvedTexts, spokenTexts]
        · simp [sentTexts, resolvedTexts]
      · rcases hft : cur.finishTimer with _ | ft
        · have hfe : timerFireE env t now s = (s, []) := by
            unfold timerFireE
            rw [hq]
            dsimp only
            rw [hft]
          replace hfe : engineStep env (.timerFire t now) s = (s, []) := hfe
          rw [hfe]
          refine ⟨⟨hsess, hctx, hflag⟩, ?_, ?_⟩
          · simp [resolvedTexts, spokenTexts]
          · simp [sentTexts, resolvedTexts]
        · by_cases hready :
              finishReady (scheduleNewChunksReq now { cur with finishTimer := none }).req t = true
          · have hfe : timerFireE env t now s =
                (let f := finishCurrentE env
                  { s with speechQueue :=
                      (scheduleNewChunksReq now { cur with finishTimer := none }).req :: rest }
                (f.1,
                  schedActions cur.text
                      (scheduleNewChunksReq now { cur with finishTimer := none }) ++ f.2)) := by
              unfold timerFireE
              rw [hq]
              dsimp only
              rw [hft]
              dsimp only
              rw [if_pos hctx]
              rw [if_pos hready]
            have hsched := sched_actions_texts
              (schedActions cur.text (scheduleNewChunksReq now { cur with finishTimer := none }))
              (schedActions_sched _ _)
            rcases hrest : rest with _ | ⟨r2, rest2⟩
            · have hfin : finishCurrentE env
                  { s with speechQueue :=
                      [(scheduleNewChunksReq now { cur with finishTimer := none }).req] } =
                  ({ s with speechQueue := [], isProcessingQueue := false },
                    [.resolved cur.text]) := by
                unfold finishCurrentE
                dsimp only
                rw [processQueueE_queue_empty env _ rfl]
                rfl
              replace hfe : engineStep env (.timerFire t now) s =
                  ({ s with speechQueue := [], isProcessingQueue := false },
                    schedActions cur.text
                        (scheduleNewChunksReq now { cur with finishTimer := none }) ++
                      [.resolved cur.text]) := by
                show timerFireE env t now s = _
                rw [hfe]
                dsimp only
                rw [hrest, hfin]
              rw [hfe]
              refine ⟨⟨hsess, hctx, rfl⟩, ?_, ?_⟩
              · rw [resolvedTexts_append, hsched.1]
                simp [resolvedTexts, queueTexts, hq, hrest, spokenTexts]
              · rw [sentTexts_append, resolvedTexts_append, hsched.1, hsched.2]
                simp [sentTexts, resolvedTexts, queueTexts, hq, hrest]
            · have hfin : finishCurrentE env
                  { s with speechQueue :=
                      (scheduleNewChunksReq now { cur with finishTimer := none }).req ::
                        r2 :: rest2 } =
                  ({ s with speechQueue := r2 :: rest2, isProcessingQueue := true },
                    [.resolved cur.text, .sent r2.text]) := by
                unfold finishCurrentE
                dsimp only
                rw [processQueueE_send env
                  { s with
                      speechQueue := r2 :: rest2,
                      isProcessingQueue := false } r2 rest2 hsend hsess rfl rfl]
                rfl
              replace hfe : engineStep env (.timerFire t now) s =
                  ({ s with speechQueue := r2 :: rest2, isProcessingQueue := true },
                    schedActions cur.text
                        (scheduleNewChunksReq now { cur with finishTimer := none }) ++
                      [.resolved cur.text, .sent r2.text]) := by
                show timerFireE env t now s = _
                rw [hfe]
                dsimp only
                rw [hrest, hfin]
              rw [hfe]
              refine ⟨⟨hsess, hctx, rfl⟩, ?_, ?_⟩
              · rw [resolvedTexts_append, hsched.1]
                simp [resolvedTexts, queueTexts, hq, hrest, spokenTexts]
              · rw [sentTexts_append, resolvedTexts_append, hsched.1, hsched.2]
                simp [sentTexts, resolvedTexts, queueTexts, hq, hrest]
          · have hfe : timerFireE env t now s =
                ({ s with speechQueue :=
                    { (scheduleNewChunksReq now { cur with finishTimer := none }).req with
                        finishTimer := some (t + idleFinishMs) } :: rest },
                  schedActions cur.text
                    (scheduleNewChunksReq now { cur with finishTimer := none })) := by
              unfold timerFireE
              rw [hq]
              dsimp only
              rw [hft]
              dsimp only
              rw [if_pos hctx]
              rw [if_neg hready]
            have hsched := sched_actions_texts
              (schedActions cur.text (scheduleNewChunksReq now { cur with finishTimer := none }))
              (schedActions_sched _ _)
            replace hfe : engineStep env (.timerFire t now) s = _ := hfe
            rw [hfe]
            refine ⟨⟨hsess, hctx, by rw [hflag, hq]; rfl⟩, ?_, ?_⟩
            · rw [hsched.1]
              show queueTexts _ = queueTexts s ++ spokenTexts [.timerFire t now]
              simp [queueTexts, hq, spokenTexts]
              show ((scheduleNewChunksReq now { cur with finishTimer := none }).req).text =
                cur.text
              rw [scheduleNewChunksReq_text]
            · rw [hsched.1, hsched.2]
              show (queueTexts s).take 1 ++ [] = [] ++ (queueTexts _).take 1
              simp [queueTexts, hq]
              show ((scheduleNewChunksReq now { cur with finishTimer := none }).req).text =
                cur.text
              rw [scheduleNewChunksReq_text]
  | chunkEnded t =>
      rcases hq : s.speechQueue with _ | ⟨cur, rest⟩
      · have hfe : chunkEndedE t s = (s, []) := by
          unfold chunkEndedE
          rw [hq]
        replace hfe : engineStep env (.chunkEnded t) s = (s, []) := hfe
        rw [hfe]
        refine ⟨⟨hsess, hctx, hflag⟩, ?_, ?_⟩
        · simp [resolvedTexts, spokenTexts]
        · simp [sentTexts, resolvedTexts]
      · cases hic : cur.isComplete
        · have hfe : chunkEndedE t s =
              ({ s with speechQueue :=
                  { cur with endedChunkCount := cur.endedChunkCount + 1 } :: rest }, []) := by
            unfold chunkEndedE
            rw [hq]
            dsimp only
            rw [hic]
            rfl
          replace hfe : engineStep env (.chunkEnded t) s = _ := hfe
          rw [hfe]
          refine ⟨⟨hsess, hctx, by rw [hflag, hq]; rfl⟩, ?_, ?_⟩
          · simp [resolvedTexts, queueTexts, hq, spokenTexts]
          · simp [sentTexts, resolvedTexts, queueTexts, hq]
        · have hfe : chunkEndedE t s =
              ({ s with
                  speechQueue :=
                    { cur with
                        endedChunkCount := cur.endedChunkCount + 1,
                        finishTimer := some (t + idleFinishMs) } :: rest }, []) := by
            unfold chunkEndedE
            rw [hq]
            dsimp only
            rw [hic]
            rfl
          replace hfe : engineStep env (.chunkEnded t) s = _ := hfe
          rw [hfe]
          refine ⟨⟨hsess, hctx, by rw [hflag, hq]; rfl⟩, ?_, ?_⟩
          · simp [resolvedTexts, queueTexts, hq, spokenTexts]
          · simp [sentTexts, resolvedTexts, queueTexts, hq]

theorem c3_run (env : Env) (hsend : env.sendOk = true) :
    ∀ (evs : List EngineEvent) (s : EngineState),
      (∀ e ∈ evs, e ≠ .disconnectCall) → C3Inv s →
      C3Inv (engineRun env evs s).1 ∧
        resolvedTexts (engineRun env evs s).2 ++ queueTexts (engineRun env evs s).1 =
          queueTexts s ++ spokenTexts evs ∧
        (queueTexts s).take 1 ++ sentTexts (engineRun env evs s).2 =
          resolvedTexts (engineRun env evs s).2 ++
            (queueTexts (engineRun env evs s).1).take 1 := by
  intro evs
  induction evs with
  | nil =>
      intro s _ hinv
      refine ⟨hinv, ?_, ?_⟩
      · show resolvedTexts [] ++ queueTexts s = queueTexts s ++ spokenTexts []
        simp [resolvedTexts, spokenTexts]
      · show (queueTexts s).take 1 ++ sentTexts [] = resolvedTexts [] ++ (queueTexts s).take 1
        simp [sentTexts, resolvedTexts]
  | cons e rest ih =>
      intro s hall hinv
      have hstep := c3_step env hsend e s (hall e (List.mem_cons_self e rest)) hinv
      have hrest := ih (engineStep env e s).1
        (fun e2 h2 => hall e2 (List.mem_cons_of_mem e h2)) hstep.1
      have hrun : engineRun env (e :: rest) s =
          ((engineRun env rest (engineStep env e s).1).1,
            (engineStep env e s).2 ++ (engineRun env rest (engineStep env e s).1).2) := rfl
      rw [hrun]
      refine ⟨hrest.1, ?_, ?_⟩
      · rw [resolvedTexts_append, List.append_assoc, hrest.2.1, ← List.append_assoc,
          hstep.2.1, List.append_assoc, ← spokenTexts_cons]
      · rw [sentTexts_append, resolvedTexts_append, ← List.append_assoc, hstep.2.2,
          List.append_assoc, hrest.2.2, ← List.append_assoc]

theorem take_one_length_take (l : List String) : l.take (l.take 1).length = l.take 1 := by
  cases l <;> rfl

/-- Two speak() calls back to back, one audio fragment and turn-complete for
the first, playback ends, and the idle timer fires past the grace window:
the first utterance resolves and the second is sent only then. -/
def fifoTrace : List EngineEvent :=
  [.speak "a", .speak "b",
   .message (bareChunkMessage threeTenthsData) 1000 0,
   .message tcMessage 1100 0,
   .chunkEnded 1150,
   .timerFire 1350 1]

/-- Claim C3: utterances are processed strictly in speak() call order with at
most one in flight.  In every run of a connected engine whose transport
accepts sends and that is not disconnected, the texts handed to the
transport are exactly an initial segment of the non-empty speak() texts in
call order, the resolved (fully played) utterances are exactly an initial
segment of the same list, and at most one utterance beyond the resolved ones
has ever been sent (the single in-flight utterance) — so nothing is skipped,
reordered, or sent before its predecessor resolves. -/
theorem strict_fifo_speech_order (env : Env) (evs : List EngineEvent)
    (hsend : env.sendOk = true) (hall : ∀ e ∈ evs, e ≠ .disconnectCall) :
    sentTexts (engineRun env evs connectedState).2 =
        (spokenTexts evs).take (sentTexts (engineRun env evs connectedState).2).length ∧
      resolvedTexts (engineRun env evs connectedState).2 =
        (spokenTexts evs).take
          (resolvedTexts (engineRun env evs connectedState).2).length ∧
      (sentTexts (engineRun env evs connectedState).2).length ≤
        (resolvedTexts (engineRun env evs connectedState).2).length + 1 := by
  have h := c3_run env hsend evs connectedState hall ⟨rfl, rfl, rfl⟩
  have hq0 : queueTexts connectedState = [] := rfl
  rw [hq0] at h
  have hA : resolvedTexts (engineRun env evs connectedState).2 ++
      queueTexts (engineRun env evs connectedState).1 = spokenTexts evs := by
    rw [h.2.1]
    rfl
  have hB : sentTexts (engineRun env evs connectedState).2 =
      resolvedTexts (engineRun env evs connectedState).2 ++
        (queueTexts (engineRun env evs connectedState).1).take 1 := by
    have := h.2.2
    simpa using this
  refine ⟨?_, ?_, ?_⟩
  · rw [hB, ← hA, List.length_append, List.take_append]
    rw [take_one_length_take]
  · conv_rhs => rw [← hA]
    exact (List.take_left _ _).symm
  · rw [hB, List.length_append]
    have : ((queueTexts (engineRun env evs connectedState).1).take 1).length ≤ 1 := by
      rw [List.length_take]
      exact min_le_left 1 _
    omega

theorem strict_fifo_speech_order_witness :
    sentTexts (engineRun realEnv fifoTrace connectedState).2 = ["a", "b"] ∧
      resolvedTexts (engineRun realEnv fifoTrace connectedState).2 = ["a"] ∧
      spokenTexts fifoTrace = ["a", "b"] ∧
      (sentTexts (engineRun realEnv fifoTrace connectedState).2 =
          (spokenTexts fifoTrace).take
            (sentTexts (engineRun realEnv fifoTrace connectedState).2).length ∧
        resolvedTexts (engineRun realEnv fifoTrace connectedState).2 =
          (spokenTexts fifoTrace).take
            (resolvedTexts (engineRun realEnv fifoTrace connectedState).2).length ∧
        (sentTexts (engineRun realEnv fifoTrace connectedState).2).length ≤
          (resolvedTexts (engineRun realEnv fifoTrace connectedState).2).length + 1) :=
  ⟨by decide, by decide, by decide,
    strict_fifo_speech_order realEnv fifoTrace rfl (by decide)⟩

end LiveAudio
